import Mathlib

/-!
# Verification of the request-normalization / response-delivery pipeline

Shallow embedding of `src/index.ts` of the `openai-gpt-image-mcp` server:
the size normalizer, filename sanitizer, image-input resolver, output
router and the two tool handlers (`create-image`, `edit-image`), together
with models of the Node.js library functions they call (`path.parse`,
`path.join`, `Buffer.byteLength(·, "base64")`, base64 encode/decode).

Strings are handled at the `List Char` level; machine integers do not
occur (all sizes are `Nat`).  Filesystem writes and the upstream network
call are modelled by explicit parameters: an `Env` record for the
environment-dependent defaults and an oracle function for the upstream
response, so that "no upstream call is made" is expressed as
oracle-independence of the result.
-/

namespace ImageMcp

/-! ## Generic list helpers -/

/-- Split a list of characters on a separator, keeping empty pieces
(model of JavaScript `String.prototype.split` with a one-character
separator, and of the segment decomposition inside Node's
`path.normalize`). -/
def splitOnChar (sep : Char) : List Char → List (List Char)
  | [] => [[]]
  | c :: rest =>
    match splitOnChar sep rest with
    | [] => [[c]]
    | h :: t => if c = sep then [] :: h :: t else (c :: h) :: t

/-- Join pieces with a single separator character (model of
`Array.prototype.join('/')`). -/
def joinSep (sep : Char) : List (List Char) → List Char
  | [] => []
  | [p] => p
  | p :: rest => p ++ sep :: joinSep sep rest

/-! ## Character classes used by the source's regular expressions -/

/-- Path separators: the class `[\/\\]` of `sanitizeFilename`. -/
def isPathSep (c : Char) : Bool := c = '/' ∨ c = '\\'

/-- The class `[<>:"|?*\x00-\x1f]` of `sanitizeFilename`. -/
def isBadFileChar (c : Char) : Bool :=
  c = '<' ∨ c = '>' ∨ c = ':' ∨ c = '"' ∨ c = '|' ∨ c = '?' ∨ c = '*' ∨ c.toNat < 0x20

/-- JavaScript `\s` (whitespace class), used by the trim step of
`sanitizeFilename` and the `replace(/\s+/g, "")` of `parseSize`. -/
def isJsWhitespace (c : Char) : Bool :=
  c = ' ' ∨ c = '\t' ∨ c = '\n' ∨ c = '\r' ∨ c.toNat = 0x0b ∨ c.toNat = 0x0c ∨
  c.toNat = 0xa0 ∨ c.toNat = 0x1680 ∨ (0x2000 ≤ c.toNat ∧ c.toNat ≤ 0x200a) ∨
  c.toNat = 0x2028 ∨ c.toNat = 0x2029 ∨ c.toNat = 0x202f ∨ c.toNat = 0x205f ∨
  c.toNat = 0x3000 ∨ c.toNat = 0xfeff

/-- The trim class `[\s.]` of `sanitizeFilename`'s third step. -/
def isTrimChar (c : Char) : Bool := isJsWhitespace c ∨ c = '.'

/-- ASCII letters, used by the drive-letter pattern `^[a-zA-Z]:[/\\]`. -/
def isAsciiLetter (c : Char) : Bool :=
  ('a' ≤ c ∧ c ≤ 'z') ∨ ('A' ≤ c ∧ c ≤ 'Z')

/-- JavaScript `\w` (word characters), used by the data-URL pattern
`^data:(image\/\w+);base64,(.*)$`. -/
def isWordChar (c : Char) : Bool :=
  ('a' ≤ c ∧ c ≤ 'z') ∨ ('A' ≤ c ∧ c ≤ 'Z') ∨ ('0' ≤ c ∧ c ≤ '9') ∨ c = '_'

/-- The class `[A-Za-z0-9+/=\r\n]` of the source's `base64Check`. -/
def isBase64CheckChar (c : Char) : Bool :=
  ('a' ≤ c ∧ c ≤ 'z') ∨ ('A' ≤ c ∧ c ≤ 'Z') ∨ ('0' ≤ c ∧ c ≤ '9') ∨
  c = '+' ∨ c = '/' ∨ c = '=' ∨ c = '\r' ∨ c = '\n'

/-- JavaScript line terminators, which `.` does not match. -/
def isLineTerm (c : Char) : Bool :=
  c = '\n' ∨ c = '\r' ∨ c.toNat = 0x2028 ∨ c.toNat = 0x2029

/-! ## `sanitizeFilename` (src/index.ts lines 42-63) -/

/-- `sanitizeFilename`: replace path separators with `-`, replace the
problematic characters `<>:"|?*` and control characters `\x00`-`\x1f`
with `-`, trim leading/trailing whitespace and dots, truncate to 200
characters, and substitute `"image"` when the result is empty. -/
def sanitizeFilename (filename : String) : String :=
  let s1 := filename.data.map (fun c => if isPathSep c then '-' else c)
  let s2 := s1.map (fun c => if isBadFileChar c then '-' else c)
  let s3 := ((s2.dropWhile (fun c => isTrimChar c)).reverse.dropWhile
      (fun c => isTrimChar c)).reverse
  let s4 := s3.take 200
  if s4 = [] then "image" else ⟨s4⟩

/-! ## Size normalizer (src/index.ts lines 66-94) -/

/-- The `aspectRatioMap` record: lookup of a normalized token. -/
def aspectRatioMap : String → Option String
  | "1:1" => some "1024x1024"
  | "square" => some "1024x1024"
  | "16:9" => some "1536x1024"
  | "landscape" => some "1536x1024"
  | "9:16" => some "1024x1536"
  | "portrait" => some "1024x1536"
  | "3:2" => some "1536x1024"
  | "2:3" => some "1024x1536"
  | "4:3" => some "1024x1024"
  | "3:4" => some "1024x1024"
  | _ => none

/-- The canonical sizes accepted upstream (`["1024x1024", "1536x1024",
"1024x1536", "auto"]`). -/
def canonicalSizes : List String := ["1024x1024", "1536x1024", "1024x1536", "auto"]

/-- `input.toLowerCase().replace(/\s+/g, "")`. -/
def normalizeSizeToken (input : String) : String :=
  ⟨(input.data.map Char.toLower).filter (fun c => ¬ isJsWhitespace c)⟩

/-- `parseSize`: keep a canonical size, map a recognized aspect-ratio
token, otherwise return the input unchanged. -/
def parseSize (input : String) : String :=
  if input ∈ canonicalSizes then input
  else
    match aspectRatioMap (normalizeSizeToken input) with
    | some v => v
    | none => input

/-! ## Input classification (src/index.ts lines 109-119, 261-273) -/

/-- The Windows drive-letter pattern `^[a-zA-Z]:[/\\]`. -/
def winDriveCheck (s : String) : Bool :=
  match s.data with
  | a :: b :: c :: _ => isAsciiLetter a ∧ b = ':' ∧ (c = '/' ∨ c = '\\')
  | _ => false

/-- `absolutePathCheck` on a present string.  The source's
`if (!val) return true` makes the empty string (falsy) pass. -/
def absolutePathCheckStr (s : String) : Bool :=
  if s = "" then true
  else s.data.head? = some '/' ∨ winDriveCheck s

/-- `absolutePathCheck` on an optional value (`undefined` passes). -/
def absolutePathCheckOpt : Option String → Bool
  | none => true
  | some s => absolutePathCheckStr s

/-- Model of `s.startsWith(pre)` via character lists. -/
def strPrefix (pre s : String) : Bool := s.data.take pre.data.length = pre.data

/-- `base64Check`: nonempty, and either every character is in the class
`[A-Za-z0-9+/=\r\n]` or the string starts with `data:image/`. -/
def base64Check (s : String) : Bool :=
  s ≠ "" ∧ (s.data.all isBase64CheckChar ∨ strPrefix "data:image/" s)

/-! ## Base64 (model of `Buffer.from(·, "base64")`, `Buffer.byteLength(·, "base64")`
and of the encoding an upstream payload arrives in) -/

/-- The base64 alphabet in order. -/
def b64Alphabet : List Char :=
  "ABCDEFGHIJKLMNOPQRSTUVWXYZabcdefghijklmnopqrstuvwxyz0123456789+/".data

/-- Character for a 6-bit value. -/
def b64Char (n : Nat) : Char := b64Alphabet.getD n 'A'

/-- Inverse of `b64Char` on the alphabet; `none` for padding, whitespace
and any other character (Node's base64 decoder skips those). -/
def b64CharVal : Char → Option Nat := fun c =>
  if 'A' ≤ c ∧ c ≤ 'Z' then some (c.toNat - 65)
  else if 'a' ≤ c ∧ c ≤ 'z' then some (c.toNat - 71)
  else if '0' ≤ c ∧ c ≤ '9' then some (c.toNat + 4)
  else if c = '+' then some 62
  else if c = '/' then some 63
  else none

/-- Standard base64 encoding of a byte sequence, three bytes at a time,
with `=` padding. -/
def encodeChunks : List Nat → List Char
  | [] => []
  | [a] => [b64Char (a / 4), b64Char (a % 4 * 16), '=', '=']
  | [a, b] => [b64Char (a / 4), b64Char (a % 4 * 16 + b / 16), b64Char (b % 16 * 4), '=']
  | a :: b :: d :: rest =>
    b64Char (a / 4) :: b64Char (a % 4 * 16 + b / 16) ::
    b64Char (b % 16 * 4 + d / 64) :: b64Char (d % 64) :: encodeChunks rest

/-- Base64 encoding as a string. -/
def base64Encode (bytes : List Nat) : String := ⟨encodeChunks bytes⟩

/-- Reassemble bytes from a list of 6-bit values (a final group of one
value contributes no byte, as in Node). -/
def decodeVals : List Nat → List Nat
  | a :: b :: c :: d :: rest =>
    (a * 4 + b / 16) :: (b % 16 * 16 + c / 4) :: (c % 4 * 64 + d) :: decodeVals rest
  | [a, b, c] => [a * 4 + b / 16, b % 16 * 16 + c / 4]
  | [a, b] => [a * 4 + b / 16]
  | _ => []

/-- Model of `Buffer.from(s, "base64")`: ignore characters outside the
alphabet (including `=` and whitespace) and decode the 6-bit values. -/
def jsBase64Decode (s : String) : List Nat :=
  decodeVals (s.data.filterMap b64CharVal)

/-- Character-list core of `Buffer.byteLength(·, "base64")`: drop up to
two trailing `=` characters, then `(len * 3) >>> 2`. -/
def byteLengthCore (l : List Char) : Nat :=
  let n := l.length
  let n1 := if l.getLast? = some '=' then n - 1 else n
  let n2 := if 1 < n1 ∧ (l.take n1).getLast? = some '=' then n1 - 1 else n1
  n2 * 3 / 4

/-- Model of `Buffer.byteLength(s, "base64")`. -/
def base64ByteLength (s : String) : Nat := byteLengthCore s.data

/-! ## Node `path` model (posix): `path.parse` and `path.join` -/

/-- The result of `path.parse` (the fields the source uses). -/
structure ParsedPath where
  dir : String
  name : String
  ext : String
deriving Repr, DecidableEq

/-- Split a basename into `(name, ext)` following Node: the extension
starts at the last dot, except when that dot is the first character of
the basename or the basename is `".."`, in which case there is no
extension. -/
def splitExt (base : List Char) : List Char × List Char :=
  if base = ['.', '.'] then (base, [])
  else
    let revB := base.reverse
    let afterDot := revB.takeWhile (fun c => c ≠ '.')
    match revB.dropWhile (fun c => c ≠ '.') with
    | [] => (base, [])
    | _ :: pre =>
      if pre = [] then (base, [])
      else (pre.reverse, '.' :: afterDot.reverse)

/-- Character-list core of posix `path.parse` (restricted to the
`dir`/`name`/`ext` fields): strip trailing separators, split at the last
separator, then split the basename into name and extension. -/
def posixParseCore : List Char → ParsedPath
  | [] => ⟨"", "", ""⟩
  | c :: body0 =>
    let isAbs := c = '/'
    let body := if isAbs then body0 else c :: body0
    let trimmed := (body.reverse.dropWhile (fun x => x = '/')).reverse
    let revT := trimmed.reverse
    let baseR := revT.takeWhile (fun x => x ≠ '/')
    let base := baseR.reverse
    let dir : List Char :=
      match revT.dropWhile (fun x => x ≠ '/') with
      | [] => if isAbs then ['/'] else []
      | _ :: restR => if isAbs then '/' :: restR.reverse else restR.reverse
    let (nm, ext) := splitExt base
    ⟨⟨dir⟩, ⟨nm⟩, ⟨ext⟩⟩

/-- Model of posix `path.parse`. -/
def posixParse (p : String) : ParsedPath := posixParseCore p.data

/-- One step of Node's segment normalization (`normalizeString`): skip
empty and `.` segments; on `..` pop (absolute paths) or pop/push
(relative paths). -/
def normStep (isAbs : Bool) (acc : List (List Char)) (part : List Char) : List (List Char) :=
  if part = [] ∨ part = ['.'] then acc
  else if part = ['.', '.'] then
    if isAbs then acc.dropLast
    else if acc = [] ∨ acc.getLast? = some ['.', '.'] then acc ++ [part]
    else acc.dropLast
  else acc ++ [part]

/-- Character-list core of posix `path.normalize`. -/
def posixNormalizeCore : List Char → List Char
  | [] => ['.']
  | c :: rest =>
    let l := c :: rest
    let isAbs := c = '/'
    let hasTrail := l.getLast? = some '/'
    let out := (splitOnChar '/' l).foldl (normStep isAbs) []
    let core := joinSep '/' out
    if core = [] then
      if isAbs then ['/'] else if hasTrail then ['.', '/'] else ['.']
    else
      (if isAbs then '/' :: core else core) ++ (if hasTrail then ['/'] else [])

/-- Model of posix `path.normalize`. -/
def posixNormalize (p : String) : String := ⟨posixNormalizeCore p.data⟩

/-- Model of posix `path.join` for two components: empty components are
skipped, the rest are joined with `/` and normalized. -/
def posixJoin (a b : String) : String :=
  if a = "" then (if b = "" then "." else posixNormalize b)
  else if b = "" then posixNormalize a
  else posixNormalize (a ++ "/" ++ b)

/-- `path.join` over a component list (the source joins up to three). -/
def posixJoinList : List String → String
  | [] => "."
  | [x] => posixJoin x ""
  | x :: rest => posixJoin x (String.intercalate "/" rest)

/-- An absolute directory built from path segments (convenience for
stating theorems about well-formed absolute paths). -/
def mkAbsDir (segs : List String) : String :=
  segs.foldl (fun acc s => acc ++ "/" ++ s) ""

/-! ## MIME helpers and the image input resolver (src/index.ts lines 344-370) -/

/-- `input.split('.').pop()?.toLowerCase()`: the part after the last dot
(the whole string when there is no dot), lower-cased. -/
def lastExtLower (s : String) : String :=
  ⟨((splitOnChar '.' s.data).getLastD []).map Char.toLower⟩

/-- MIME type inferred from a file path's extension; defaults to
`image/png`. -/
def mimeFromPath (s : String) : String :=
  let ext := lastExtLower s
  if ext = "jpg" ∨ ext = "jpeg" then "image/jpeg"
  else if ext = "webp" then "image/webp"
  else "image/png"

/-- `mime.split("/")[1] || "png"`. -/
def mimeSubtype (mime : String) : String :=
  match (splitOnChar '/' mime.data).getD 1 [] with
  | [] => "png"
  | l => ⟨l⟩

/-- Match of `^data:(image\/\w+);base64,(.*)$` (returns the captured MIME
type and payload).  `\w+` is a maximal munch because `;` is not a word
character; `.` does not match line terminators. -/
def dataUrlMatch (s : String) : Option (String × String) :=
  if strPrefix "data:image/" s then
    let rest := s.data.drop 11
    let w := rest.takeWhile isWordChar
    let rest2 := rest.dropWhile isWordChar
    if w = [] then none
    else if rest2.take 8 = (";base64,").data then
      let payload := rest2.drop 8
      if payload.all (fun c => ¬ isLineTerm c) then some (⟨"image/".data ++ w⟩, ⟨payload⟩)
      else none
    else none
  else none

/-- The result of `inputToFile`: either a byte stream opened from a file
path, or decoded bytes with a synthetic filename. -/
inductive ResolvedImage where
  | fileStream (path : String) (mime : String)
  | bytes (data : List Nat) (mime : String) (name : String)
deriving Repr, DecidableEq

/-- `inputToFile`: absolute paths are opened as streams with the MIME
type inferred from the extension; anything else is treated as base64,
with the MIME type and payload taken from a data-URL wrapper when the
string is a well-formed data URL. -/
def inputToFile (input : String) (idx : Nat) : ResolvedImage :=
  if absolutePathCheckStr input then
    .fileStream input (mimeFromPath input)
  else
    let (mime, b64) :=
      if strPrefix "data:image/" input then
        match dataUrlMatch input with
        | some (m, payload) => (m, payload)
        | none => ("image/png", input)
      else ("image/png", input)
    .bytes (jsBase64Decode b64) mime ("input_" ++ Nat.repr idx ++ "." ++ mimeSubtype mime)

/-! ## Data model of the two tool operations -/

/-- Delivery modes (`z.enum(["base64", "file_output"])`). -/
inductive OutputMode | base64 | fileOutput
deriving Repr, DecidableEq

/-- `output` defaults to `"base64"` when omitted (`.default("base64")`). -/
def defaultOutput : Option OutputMode → OutputMode
  | none => .base64
  | some m => m

/-- Background values. -/
inductive Background | transparent | opaqueBg | auto
deriving Repr, DecidableEq

/-- Output formats. -/
inductive OutputFormat | png | jpeg | webp
deriving Repr, DecidableEq

/-- Quality values. -/
inductive Quality | auto | high | medium | low
deriving Repr, DecidableEq

/-- Moderation values. -/
inductive Moderation | auto | low
deriving Repr, DecidableEq

/-- Error kinds of §7 of the spec.  Shape/refinement failures and the
explicit size/background throws are parameter errors; the image/mask
classification throws are input errors. -/
inductive Err where
  | invalidParameter (msg : String)
  | invalidInput (msg : String)
deriving Repr, DecidableEq

/-- A tool response: inline image entries `(base64 data, mimeType)` or
one `file://` text entry per written file (carrying the path). -/
inductive Response where
  | inline (items : List (String × String))
  | files (paths : List String)
deriving Repr, DecidableEq

/-- Environment-dependent inputs of one invocation: the home directory,
whether creating the default directory succeeds, the `MCP_HF_WORK_DIR`
variable and the `Date.now()` timestamp. -/
structure Env where
  homeDir : String
  mkdirOk : Bool
  mcpWorkDir : Option String
  now : Nat

/-- `getDefaultOutputDir`: `~/Pictures/gpt-image`, falling back to
`MCP_HF_WORK_DIR` or `/tmp` when the directory cannot be created. -/
def getDefaultOutputDir (env : Env) : String :=
  if env.mkdirOk then posixJoinList [env.homeDir, "Pictures", "gpt-image"]
  else env.mcpWorkDir.getD "/tmp"

/-- Arguments of `create-image` after enum decoding.  `size` and
`file_output` stay raw strings (their schema-level checks are in
`createShapeOk`). -/
structure CreateArgs where
  prompt : String
  background : Option Background := none
  moderation : Option Moderation := none
  n : Option Nat := none
  output_compression : Option Nat := none
  output_format : Option OutputFormat := none
  quality : Option Quality := none
  size : Option String := none
  user : Option String := none
  output : Option OutputMode := none
  file_output : Option String := none
  filename : Option String := none

/-- Arguments of `edit-image` after enum decoding. -/
structure EditArgs where
  image : String
  prompt : String
  mask : Option String := none
  n : Option Nat := none
  quality : Option Quality := none
  size : Option String := none
  user : Option String := none
  output : Option OutputMode := none
  file_output : Option String := none
  filename : Option String := none

/-- The schema shape the transport layer validates `create-image`
arguments against.  Because the handler registers
`createImageSchema._def.schema.shape`, only per-field checks run here —
the cross-field `file_output`-required refinement is not part of it. -/
def createShapeOk (a : CreateArgs) : Bool :=
  decide (a.prompt.length ≤ 32000) &&
  (match a.size with | none => true | some s => decide (s ∈ canonicalSizes)) &&
  (match a.n with | none => true | some k => decide (1 ≤ k ∧ k ≤ 10)) &&
  (match a.output_compression with | none => true | some k => decide (k ≤ 100)) &&
  absolutePathCheckOpt a.file_output

/-- The schema shape of `edit-image` (`editImageBaseSchema.shape`):
per-field checks only. -/
def editShapeOk (a : EditArgs) : Bool :=
  decide (a.prompt.length ≤ 32000) &&
  (match a.size with | none => true | some s => decide (s ∈ canonicalSizes)) &&
  (match a.n with | none => true | some k => decide (1 ≤ k ∧ k ≤ 10)) &&
  absolutePathCheckOpt a.file_output

/-- The refinement of the full `editImageSchema`, applied by
`editImageSchema.parse(args)` inside the handler: when `output` is
`"file_output"`, `file_output` must be present and absolute. -/
def editRefineOk (a : EditArgs) : Bool :=
  match defaultOutput a.output with
  | .base64 => true
  | .fileOutput =>
    match a.file_output with
    | none => false
    | some v => absolutePathCheckStr v

/-! ## Handler pipelines (src/index.ts lines 135-258 and 302-457) -/

/-- `ext` of a returned image (lines 200, 399): from `output_format` for
`create-image`, always png for `edit-image`. -/
def extOfFormat : Option OutputFormat → String
  | some .jpeg => "jpg"
  | some .webp => "webp"
  | _ => "png"

/-- `mimeType` of a returned image (line 199). -/
def mimeOfFormat : Option OutputFormat → String
  | some .jpeg => "image/jpeg"
  | some .webp => "image/webp"
  | _ => "image/png"

/-- The upstream request built by `create-image` (the `imageParams`
object; absent optionals are omitted, and `output_compression` is kept
only for webp/jpeg). -/
structure GenParams where
  prompt : String
  model : String := "gpt-image-1"
  background : Option Background := none
  moderation : Option Moderation := none
  n : Option Nat := none
  output_format : Option OutputFormat := none
  quality : Option Quality := none
  size : Option String := none
  user : Option String := none
  output_compression : Option Nat := none

/-- The upstream request built by `edit-image` (the `editParams`
object). -/
structure EditParams where
  image : ResolvedImage
  prompt : String
  model : String := "gpt-image-1"
  mask : Option ResolvedImage := none
  n : Option Nat := none
  quality : Option Quality := none
  size : Option String := none
  user : Option String := none

/-- The size error message (lines 163-166, 338-341). -/
def sizeErrorMsg (sizeRaw : String) : String :=
  "Invalid size " ++ sizeRaw ++ ". Supported sizes: 1024x1024, 1536x1024, 1024x1536, auto."

/-- `size && !canonicalSizes.includes(size)` (lines 162, 337): a present
parsed size that is still not canonical. -/
def sizeInvalid : Option String → Bool
  | none => false
  | some s => decide (s ∉ canonicalSizes)

/-- A present string that matches neither the absolute-path nor the
base64/data-URL classification. -/
def inputBad : Option String → Bool
  | none => false
  | some s => ¬ absolutePathCheckStr s && ¬ base64Check s

/-- Pre-upstream stage of the `create-image` handler: normalize and
validate `size`, enforce the background/output_format constraint, then
assemble `imageParams`. -/
def createValidate (a : CreateArgs) : Except Err GenParams :=
  let size := a.size.map parseSize
  if sizeInvalid size then
    .error (.invalidParameter (sizeErrorMsg (a.size.getD "")))
  else if a.background = some .transparent ∧
      (a.output_format.isSome ∧ a.output_format ≠ some .png ∧ a.output_format ≠ some .webp) then
    .error (.invalidParameter "If background is 'transparent', output_format must be 'png' or 'webp'")
  else
    .ok { prompt := a.prompt
          background := a.background
          moderation := a.moderation
          n := a.n
          output_format := a.output_format
          quality := a.quality
          size := size
          user := a.user
          output_compression :=
            match a.output_compression, a.output_format with
            | some k, some .webp => some k
            | some k, some .jpeg => some k
            | _, _ => none }

/-- Pre-upstream stage of the `edit-image` handler:
`editImageSchema.parse` (the cross-field refinement), the explicit
image/mask classification checks, size validation, then `editParams`
assembly (resolving image and mask via `inputToFile`). -/
def editValidate (a : EditArgs) : Except Err EditParams :=
  if ¬ editRefineOk a then
    .error (.invalidParameter "file_output must be an absolute path when output is 'file_output'")
  else if inputBad (some a.image) then
    .error (.invalidInput "Invalid 'image' input: Must be an absolute path or a base64-encoded string.")
  else if inputBad a.mask then
    .error (.invalidInput "Invalid 'mask' input: Must be an absolute path or a base64-encoded string.")
  else
    let size := a.size.map parseSize
    if sizeInvalid size then
      .error (.invalidParameter (sizeErrorMsg (a.size.getD "")))
    else
      .ok { image := inputToFile a.image 0
            prompt := a.prompt
            mask := a.mask.map (inputToFile · 1)
            n := a.n
            quality := a.quality
            size := size
            user := a.user }

/-- Destination path of payload `i` (0-based) out of `count` in the
`create-image` handler (lines 232-242): the extension is always forced
to the payload's `ext`. -/
def createFilePath (basePath ext : String) (count i : Nat) : String :=
  let parsed := posixParse basePath
  if 1 < count then
    posixJoin parsed.dir (parsed.name ++ "_" ++ Nat.repr (i + 1) ++ "." ++ ext)
  else
    posixJoin parsed.dir (parsed.name ++ "." ++ ext)

/-- Destination path of payload `i` out of `count` in the `edit-image`
handler (lines 427-440): the base path's extension is preserved when
present, defaulting to the payload's `ext` otherwise. -/
def editFilePath (basePath ext : String) (count i : Nat) : String :=
  let parsed := posixParse basePath
  let e := if parsed.ext ≠ "" then parsed.ext else "." ++ ext
  if 1 < count then
    posixJoin parsed.dir (parsed.name ++ "_" ++ Nat.repr (i + 1) ++ e)
  else
    posixJoin parsed.dir (parsed.name ++ e)

/-- The transport response-size ceiling (`MAX_RESPONSE_SIZE`). -/
def maxResponseSize : Nat := 1048576

/-- Default base path used by `create-image` when switching to file
output without an explicit `file_output` (lines 210-215, 222-227):
default directory, sanitized `filename` or `openai_image_<timestamp>`,
and the first payload's extension. -/
def createDefaultBase (a : CreateArgs) (env : Env) (ext0 : String) : String :=
  posixJoin (getDefaultOutputDir env)
    ((match a.filename with
      | some f => sanitizeFilename f
      | none => "openai_image_" ++ Nat.repr env.now) ++ "." ++ ext0)

/-- Default base path used by `edit-image` (lines 409-414, 418-423):
always a `.png` name. -/
def editDefaultBase (a : EditArgs) (env : Env) : String :=
  posixJoin (getDefaultOutputDir env)
    ((match a.filename with
      | some f => sanitizeFilename f
      | none => "openai_image_edit_" ++ Nat.repr env.now) ++ ".png")

/-- Post-upstream stage of `create-image` (lines 196-256): auto-switch
to file output past the size ceiling, then deliver inline or derive one
path per payload. -/
def createRespond (a : CreateArgs) (payloads : List String) (env : Env) : Response :=
  let ext := extOfFormat a.output_format
  let mime := mimeOfFormat a.output_format
  let total := (payloads.map base64ByteLength).sum
  let output := defaultOutput a.output
  let effOutput :=
    if output = .base64 ∧ maxResponseSize < total then OutputMode.fileOutput else output
  match effOutput with
  | .base64 => .inline (payloads.map (fun p => (p, mime)))
  | .fileOutput =>
    let basePath :=
      match a.file_output with
      | some f => f
      | none => createDefaultBase a env (if payloads.isEmpty then "png" else ext)
    .files ((List.range payloads.length).map (createFilePath basePath ext payloads.length))

/-- Post-upstream stage of `edit-image` (lines 396-455). -/
def editRespond (a : EditArgs) (payloads : List String) (env : Env) : Response :=
  let total := (payloads.map base64ByteLength).sum
  let output := defaultOutput a.output
  let effOutput :=
    if output = .base64 ∧ maxResponseSize < total then OutputMode.fileOutput else output
  match effOutput with
  | .base64 => .inline (payloads.map (fun p => (p, "image/png")))
  | .fileOutput =>
    let basePath :=
      match a.file_output with
      | some f => f
      | none => editDefaultBase a env
    .files ((List.range payloads.length).map (editFilePath basePath "png" payloads.length))

/-- Full `create-image` invocation: transport-level shape validation,
handler validation, one upstream call (the oracle), response routing.
The handler never re-applies the cross-field `file_output` refinement,
because `server.tool` was given `createImageSchema._def.schema.shape`
and the handler does not call `parse`. -/
def createInvoke (a : CreateArgs) (upstream : GenParams → List String) (env : Env) :
    Except Err Response :=
  if ¬ createShapeOk a then .error (.invalidParameter "invalid arguments") else
  match createValidate a with
  | .error e => .error e
  | .ok params => .ok (createRespond a (upstream params) env)

/-- Full `edit-image` invocation: transport-level shape validation, then
`editValidate` (which re-applies the full schema refinement), one
upstream call, response routing. -/
def editInvoke (a : EditArgs) (upstream : EditParams → List String) (env : Env) :
    Except Err Response :=
  if ¬ editShapeOk a then .error (.invalidParameter "invalid arguments") else
  match editValidate a with
  | .error e => .error e
  | .ok params => .ok (editRespond a (upstream params) env)

/-! ## Auxiliary definitions used only to state and prove theorems -/

/-- The 6-bit values of a byte sequence (groups of three bytes give four
values; used to relate `base64Encode` and `decodeVals`). -/
def sextets : List Nat → List Nat
  | [] => []
  | [a] => [a / 4, a % 4 * 16]
  | [a, b] => [a / 4, a % 4 * 16 + b / 16, b % 16 * 4]
  | a :: b :: d :: rest =>
    (a / 4) :: (a % 4 * 16 + b / 16) :: (b % 16 * 4 + d / 64) :: (d % 64) :: sextets rest

/-- A byte sequence (every element below 256). -/
def bytesOk (B : List Nat) : Prop := ∀ b ∈ B, b < 256

instance (B : List Nat) : Decidable (bytesOk B) := by
  unfold bytesOk
  infer_instance

/-- ASCII alphanumerics, hyphen and underscore — the characters claimed
to pass through the sanitizer unchanged. -/
def plainFileChar (c : Char) : Bool :=
  (97 ≤ c.toNat ∧ c.toNat ≤ 122) ∨ (65 ≤ c.toNat ∧ c.toNat ≤ 90) ∨
  (48 ≤ c.toNat ∧ c.toNat ≤ 57) ∨ c = '-' ∨ c = '_'

/-- Adjacent dots — the traversal sequence `".."` — occur somewhere in
the list. -/
def containsDotDot : List Char → Bool
  | '.' :: '.' :: _ => true
  | _ :: rest => containsDotDot rest
  | [] => false

/-- The invocation failed (with any error kind). -/
def isError : Except Err Response → Bool
  | .error _ => true
  | .ok _ => false

/-- The invocation failed with an `InvalidParameter` error. -/
def isInvalidParameter : Except Err Response → Bool
  | .error (.invalidParameter _) => true
  | _ => false

/-- A clean path segment: nonempty, without separators, and not one of
the special segments `.`/`..` that `path.join`'s normalization would
rewrite. -/
def cleanSeg (s : String) : Prop :=
  s ≠ "" ∧ '/' ∉ s.data ∧ s ≠ "." ∧ s ≠ ".."

instance (s : String) : Decidable (cleanSeg s) := by
  unfold cleanSeg; infer_instance

/-! # Theorems -/

/-! ## Generic list helpers -/

theorem splitOnChar_ne_nil (sep : Char) (l : List Char) : splitOnChar sep l ≠ [] := by
  cases l with
  | nil => simp [splitOnChar]
  | cons c rest =>
    simp only [splitOnChar]
    rcases h : splitOnChar sep rest with _ | ⟨h', t⟩
    · simp
    · dsimp only
      split <;> simp

theorem splitOnChar_sep_cons (sep : Char) (l : List Char) :
    splitOnChar sep (sep :: l) = [] :: splitOnChar sep l := by
  simp only [splitOnChar]
  rcases h : splitOnChar sep l with _ | ⟨h', t⟩
  · exact absurd h (splitOnChar_ne_nil sep l)
  · simp

theorem splitOnChar_no_sep (sep : Char) (l : List Char) (h : sep ∉ l) :
    splitOnChar sep l = [l] := by
  induction l with
  | nil => rfl
  | cons c rest ih =>
    have hc : c ≠ sep := fun hh => h (by simp [hh])
    have hr : sep ∉ rest := fun hh => h (by simp [hh])
    simp only [splitOnChar, ih hr]
    simp [fun hh : c = sep => hc hh]

theorem splitOnChar_append_sep (sep : Char) (l₁ l₂ : List Char) (h : sep ∉ l₁) :
    splitOnChar sep (l₁ ++ sep :: l₂) = l₁ :: splitOnChar sep l₂ := by
  induction l₁ with
  | nil => simpa using splitOnChar_sep_cons sep l₂
  | cons c rest ih =>
    have hc : c ≠ sep := fun hh => h (by simp [hh])
    have hr : sep ∉ rest := fun hh => h (by simp [hh])
    simp only [List.cons_append, splitOnChar, List.append_eq]
    rw [ih hr]
    simp [fun hh : c = sep => hc hh]

theorem joinSep_append_singleton (sep : Char) (parts : List (List Char)) (x : List Char)
    (h : parts ≠ []) :
    joinSep sep (parts ++ [x]) = joinSep sep parts ++ sep :: x := by
  induction parts with
  | nil => exact absurd rfl h
  | cons p rest ih =>
    cases rest with
    | nil => rfl
    | cons q rest' =>
      have := ih (by simp)
      simp only [List.cons_append, joinSep, List.append_eq] at *
      rw [this]
      simp

/-! ## Base64 lemmas -/

theorem b64Char_val : ∀ n < 64, b64CharVal (b64Char n) = some n := by decide

theorem b64Char_ne_eq (n : Nat) : b64Char n ≠ '=' := by
  by_cases h : n < 64
  · revert n
    decide
  · show b64Alphabet.getD n 'A' ≠ '='
    rw [List.getD_eq_default]
    · decide
    · simpa [b64Alphabet] using Nat.le_of_not_lt h

theorem b64Char_mem (n : Nat) : b64Char n ∈ b64Alphabet := by
  by_cases h : n < 64
  · revert n
    decide
  · show b64Alphabet.getD n 'A' ∈ b64Alphabet
    rw [List.getD_eq_default]
    · decide
    · simpa [b64Alphabet] using Nat.le_of_not_lt h

theorem encodeChunks_mem (B : List Nat) :
    ∀ c ∈ encodeChunks B, c ∈ b64Alphabet ∨ c = '=' := by
  induction B using encodeChunks.induct with
  | case1 => simp [encodeChunks]
  | case2 a =>
    simp only [encodeChunks, List.mem_cons]
    rintro c (rfl | rfl | rfl | rfl | h)
    · exact .inl (b64Char_mem _)
    · exact .inl (b64Char_mem _)
    · exact .inr rfl
    · exact .inr rfl
    · simp at h
  | case3 a b =>
    simp only [encodeChunks, List.mem_cons]
    rintro c (rfl | rfl | rfl | rfl | h)
    · exact .inl (b64Char_mem _)
    · exact .inl (b64Char_mem _)
    · exact .inl (b64Char_mem _)
    · exact .inr rfl
    · simp at h
  | case4 a b d rest ih =>
    simp only [encodeChunks, List.mem_cons]
    rintro c (rfl | rfl | rfl | rfl | h)
    · exact .inl (b64Char_mem _)
    · exact .inl (b64Char_mem _)
    · exact .inl (b64Char_mem _)
    · exact .inl (b64Char_mem _)
    · exact ih c h

theorem b64CharVal_pad : b64CharVal '=' = none := by decide

theorem filterMap_encodeChunks (B : List Nat) (hB : bytesOk B) :
    (encodeChunks B).filterMap b64CharVal = sextets B := by
  induction B using encodeChunks.induct with
  | case1 => simp [encodeChunks, sextets]
  | case2 a =>
    have ha : a < 256 := hB a (by simp)
    simp [encodeChunks, sextets, List.filterMap_cons,
      b64Char_val _ (by omega : a / 4 < 64),
      b64Char_val _ (by omega : a % 4 * 16 < 64), b64CharVal_pad]
  | case3 a b =>
    have ha : a < 256 := hB a (by simp)
    have hb : b < 256 := hB b (by simp)
    simp [encodeChunks, sextets, List.filterMap_cons,
      b64Char_val _ (by omega : a / 4 < 64),
      b64Char_val _ (by omega : a % 4 * 16 + b / 16 < 64),
      b64Char_val _ (by omega : b % 16 * 4 < 64), b64CharVal_pad]
  | case4 a b d rest ih =>
    have ha : a < 256 := hB a (by simp)
    have hb : b < 256 := hB b (by simp)
    have hd : d < 256 := hB d (by simp)
    have hrest : bytesOk rest := fun x hx => hB x (by simp [hx])
    simp [encodeChunks, sextets, List.filterMap_cons, ih hrest,
      b64Char_val _ (by omega : a / 4 < 64),
      b64Char_val _ (by omega : a % 4 * 16 + b / 16 < 64),
      b64Char_val _ (by omega : b % 16 * 4 + d / 64 < 64),
      b64Char_val _ (by omega : d % 64 < 64)]

theorem decodeVals_sextets (B : List Nat) (hB : bytesOk B) :
    decodeVals (sextets B) = B := by
  induction B using sextets.induct with
  | case1 => rfl
  | case2 a =>
    have ha : a < 256 := hB a (by simp)
    simp only [sextets, decodeVals]
    congr 1
    omega
  | case3 a b =>
    have ha : a < 256 := hB a (by simp)
    have hb : b < 256 := hB b (by simp)
    simp only [sextets, decodeVals]
    congr 1
    · omega
    · congr 1
      omega
  | case4 a b d rest ih =>
    have ha : a < 256 := hB a (by simp)
    have hb : b < 256 := hB b (by simp)
    have hd : d < 256 := hB d (by simp)
    have hrest : bytesOk rest := fun x hx => hB x (by simp [hx])
    simp only [sextets, decodeVals, ih hrest]
    congr 1
    · omega
    · congr 1
      · omega
      · congr 1
        omega

theorem jsBase64Decode_encode (B : List Nat) (hB : bytesOk B) :
    jsBase64Decode (base64Encode B) = B := by
  show decodeVals ((encodeChunks B).filterMap b64CharVal) = B
  rw [filterMap_encodeChunks B hB, decodeVals_sextets B hB]

theorem encodeChunks_length (B : List Nat) :
    (encodeChunks B).length = 4 * ((B.length + 2) / 3) := by
  induction B using encodeChunks.induct with
  | case1 => rfl
  | case2 a => simp [encodeChunks]
  | case3 a b => simp [encodeChunks]
  | case4 a b d rest ih =>
    simp only [encodeChunks, List.length_cons, ih]
    omega

theorem getLast?_cons4 {α : Type} (c1 c2 c3 c4 : α) {l : List α} (h : l ≠ []) :
    (c1 :: c2 :: c3 :: c4 :: l).getLast? = l.getLast? := by
  cases l with
  | nil => exact absurd rfl h
  | cons y ys => simp [List.getLast?_cons_cons]

theorem take_ne_nil_of_pos {α : Type} (l : List α) (n : Nat) (hn : 0 < n) (hl : l ≠ []) :
    l.take n ≠ [] := by
  apply List.ne_nil_of_length_pos
  rw [List.length_take]
  have : 0 < l.length := List.length_pos.mpr hl
  omega

theorem byteLengthCore_four (x y z w : Char) :
    byteLengthCore [x, y, z, w] = if w = '=' then (if z = '=' then 1 else 2) else 3 := by
  by_cases hw : w = '='
  · subst hw
    by_cases hz : z = '='
    · subst hz
      simp [byteLengthCore, List.getLast?_cons_cons, List.take_succ_cons]
    · simp [byteLengthCore, List.getLast?_cons_cons, List.take_succ_cons, hz]
  · simp [byteLengthCore, List.getLast?_cons_cons, List.take_succ_cons, hw]

theorem byteLengthCore_cons4 (c1 c2 c3 c4 : Char) (r : List Char) (k : Nat)
    (hlen : r.length = 4 * k) (hk : 0 < k) :
    byteLengthCore (c1 :: c2 :: c3 :: c4 :: r) = 3 + byteLengthCore r := by
  have hr : r ≠ [] := by
    intro h
    rw [h] at hlen
    simp at hlen
    omega
  have hm : 4 ≤ r.length := by omega
  simp only [byteLengthCore, List.length_cons, getLast?_cons4 c1 c2 c3 c4 hr]
  by_cases h1 : r.getLast? = some '='
  · rw [if_pos h1, if_pos h1]
    have e1 : r.length + 1 + 1 + 1 + 1 - 1 = r.length - 1 + 1 + 1 + 1 + 1 := by omega
    rw [e1]
    simp only [List.take_succ_cons]
    have hmt : r.take (r.length - 1) ≠ [] := take_ne_nil_of_pos r _ (by omega) hr
    simp only [getLast?_cons4 c1 c2 c3 c4 hmt]
    by_cases h2 : (r.take (r.length - 1)).getLast? = some '='
    · rw [if_pos ⟨by omega, h2⟩, if_pos ⟨by omega, h2⟩]
      omega
    · rw [if_neg (fun hc => h2 hc.2), if_neg (fun hc => h2 hc.2)]
      omega
  · rw [if_neg h1, if_neg h1]
    simp only [List.take_succ_cons, List.take_length]
    simp only [getLast?_cons4 c1 c2 c3 c4 hr]
    rw [if_neg (fun hc => h1 hc.2), if_neg (fun hc => h1 hc.2)]
    omega

theorem byteLength_encode (B : List Nat) :
    base64ByteLength (base64Encode B) = B.length := by
  show byteLengthCore (encodeChunks B) = B.length
  induction B using encodeChunks.induct with
  | case1 => rfl
  | case2 a =>
    show byteLengthCore [_, _, '=', '='] = 1
    rw [byteLengthCore_four]
    simp
  | case3 a b =>
    show byteLengthCore [_, _, _, '='] = 2
    rw [byteLengthCore_four]
    simp [b64Char_ne_eq]
  | case4 a b d rest ih =>
    by_cases hrne : rest = []
    · subst hrne
      show byteLengthCore [_, _, _, _] = 3
      rw [byteLengthCore_four]
      simp [b64Char_ne_eq]
    · have hlen : (encodeChunks rest).length = 4 * ((rest.length + 2) / 3) :=
        encodeChunks_length rest
      have h1 : 1 ≤ rest.length := by
        cases rest with
        | nil => exact absurd rfl hrne
        | cons y ys => simp
      have hkpos : 0 < (rest.length + 2) / 3 := by omega
      show byteLengthCore (_ :: _ :: _ :: _ :: encodeChunks rest) = _
      rw [byteLengthCore_cons4 _ _ _ _ _ _ hlen hkpos, ih]
      simp only [List.length_cons]
      omega

/-! ## Filename sanitizer lemmas -/

theorem map_id_of {α : Type} (f : α → α) (l : List α) (h : ∀ a ∈ l, f a = a) :
    l.map f = l := by
  induction l with
  | nil => rfl
  | cons a t ih =>
    simp only [List.map_cons, h a (by simp), ih (fun x hx => h x (by simp [hx]))]

theorem head?_dropWhile {α : Type} (p : α → Bool) (l : List α) (a : α)
    (h : (l.dropWhile p).head? = some a) : p a = false := by
  induction l with
  | nil => simp [List.dropWhile] at h
  | cons b t ih =>
    rw [List.dropWhile_cons] at h
    by_cases hb : p b
    · rw [if_pos hb] at h
      exact ih h
    · rw [if_neg hb] at h
      simp only [List.head?_cons, Option.some.injEq] at h
      subst h
      simpa using hb

theorem dropWhile_eq_self_of {α : Type} (p : α → Bool) (l : List α)
    (h : ∀ a, l.head? = some a → p a = false) : l.dropWhile p = l := by
  cases l with
  | nil => rfl
  | cons b t =>
    rw [List.dropWhile_cons, if_neg]
    simp [h b rfl]

theorem head?_take_pos {α : Type} (l : List α) (n : Nat) (hn : 0 < n) :
    (l.take n).head? = l.head? := by
  cases l with
  | nil => simp
  | cons a t =>
    obtain ⟨m, rfl⟩ : ∃ m, n = m + 1 := ⟨n - 1, by omega⟩
    simp [List.take_succ_cons]

theorem rtrim_decomp (p : Char → Bool) (Y : List Char) :
    Y = (Y.reverse.dropWhile p).reverse ++ (Y.reverse.takeWhile p).reverse := by
  have h := List.takeWhile_append_dropWhile (p := p) (l := Y.reverse)
  have h2 := congrArg List.reverse h
  rw [List.reverse_append, List.reverse_reverse] at h2
  exact h2.symm

theorem string_mk_data (s : String) : (⟨s.data⟩ : String) = s := by
  cases s
  rfl

/-- Every character of a sanitized filename: no separators, no control
characters. -/
theorem sanitizeFilename_chars (s : String) :
    ∀ c ∈ (sanitizeFilename s).data, c ≠ '/' ∧ c ≠ '\\' ∧ ¬ (c.toNat < 0x20) := by
  intro c hc
  rw [sanitizeFilename] at hc
  split at hc
  · have h' : c = 'i' ∨ c = 'm' ∨ c = 'a' ∨ c = 'g' ∨ c = 'e' := by
      simpa using hc
    rcases h' with rfl | rfl | rfl | rfl | rfl <;> decide
  · -- the character survived taking, trimming and both replacement maps
    rw [string_mk_data] at hc
    replace hc := List.take_subset _ _ hc
    replace hc := (List.dropWhile_sublist _).subset (List.mem_reverse.mp hc)
    replace hc := List.mem_reverse.mp hc
    replace hc := (List.dropWhile_sublist _).subset hc
    rcases List.mem_map.mp hc with ⟨b, hb, rfl⟩
    rcases List.mem_map.mp hb with ⟨a, _, rfl⟩
    by_cases hsep : isPathSep a
    · simp only [if_pos hsep]
      decide
    · simp only [if_neg hsep]
      by_cases hbad : isBadFileChar a
      · simp only [if_pos hbad]
        decide
      · simp only [if_neg hbad]
        simp only [isPathSep, decide_eq_true_eq, not_or] at hsep
        simp only [isBadFileChar, decide_eq_true_eq, not_or] at hbad
        exact ⟨hsep.1, hsep.2, hbad.2.2.2.2.2.2.2⟩

/-- A sanitized filename is never empty. -/
theorem sanitizeFilename_ne_empty (s : String) : sanitizeFilename s ≠ "" := by
  rw [sanitizeFilename]
  split
  · decide
  · rename_i h4
    intro h
    exact h4 (congrArg String.data h)

/-- A sanitized filename never starts with a dot (or whitespace). -/
theorem sanitizeFilename_head (s : String) (c : Char)
    (h : (sanitizeFilename s).data.head? = some c) : isTrimChar c = false := by
  rw [sanitizeFilename] at h
  split at h
  · simp at h
    rw [← h]
    decide
  · rw [string_mk_data] at h
    rw [head?_take_pos _ _ (by omega)] at h
    -- head of the right-trimmed list is the head of the left-trimmed list
    set Y := ((s.data.map fun c => if isPathSep c then '-' else c).map
        fun c => if isBadFileChar c then '-' else c).dropWhile (fun c => isTrimChar c) with hY
    have hd := rtrim_decomp (fun c => isTrimChar c) Y
    have hhd : Y.head? = some c := by
      rw [hd, List.head?_append, h]
      rfl
    exact head?_dropWhile _ _ _ hhd

/-- A plain filename character is not a separator, not in the bad-character
class, and not trimmed. -/
theorem plain_not_special (c : Char) (h : plainFileChar c = true) :
    isPathSep c = false ∧ isBadFileChar c = false ∧ isTrimChar c = false := by
  have hn : (97 ≤ c.toNat ∧ c.toNat ≤ 122) ∨ (65 ≤ c.toNat ∧ c.toNat ≤ 90) ∨
      (48 ≤ c.toNat ∧ c.toNat ≤ 57) ∨ c.toNat = 45 ∨ c.toNat = 95 := by
    simp only [plainFileChar, decide_eq_true_eq] at h
    rcases h with h | h | h | rfl | rfl
    · exact .inl h
    · exact .inr (.inl h)
    · exact .inr (.inr (.inl h))
    · exact .inr (.inr (.inr (.inl (by decide))))
    · exact .inr (.inr (.inr (.inr (by decide))))
  refine ⟨?_, ?_, ?_⟩
  · apply decide_eq_false
    intro hor
    rcases hor with rfl | rfl <;> revert hn <;> decide
  · apply decide_eq_false
    intro hor
    rcases hor with rfl | rfl | rfl | rfl | rfl | rfl | rfl | hlt
    · revert hn; decide
    · revert hn; decide
    · revert hn; decide
    · revert hn; decide
    · revert hn; decide
    · revert hn; decide
    · revert hn; decide
    · omega
  · apply decide_eq_false
    intro hor
    rcases hor with hws | rfl
    · simp only [isJsWhitespace, decide_eq_true_eq] at hws
      rcases hws with rfl | rfl | rfl | rfl | h | h | h | h | h | h | h | h | h | h | h
      · revert hn; decide
      · revert hn; decide
      · revert hn; decide
      · revert hn; decide
      all_goals omega
    · revert hn; decide

/-- On nonempty strings of at most 200 plain characters the sanitizer is
the identity. -/
theorem sanitizeFilename_id (s : String) (hne : s.data ≠ []) (hlen : s.data.length ≤ 200)
    (hchars : ∀ c ∈ s.data, plainFileChar c = true) : sanitizeFilename s = s := by
  have h1 : ∀ a ∈ s.data, isPathSep a = false ∧ isBadFileChar a = false ∧ isTrimChar a = false :=
    fun a ha => plain_not_special a (hchars a ha)
  have hmap1 : s.data.map (fun c => if isPathSep c then '-' else c) = s.data :=
    map_id_of _ _ (fun a ha => if_neg (by simp [(h1 a ha).1]))
  rw [sanitizeFilename, hmap1]
  have hmap2 : s.data.map (fun c => if isBadFileChar c then '-' else c) = s.data :=
    map_id_of _ _ (fun a ha => if_neg (by simp [(h1 a ha).2.1]))
  rw [hmap2]
  have hdrop1 : s.data.dropWhile (fun c => isTrimChar c) = s.data :=
    dropWhile_eq_self_of _ _ (fun a ha =>
      (h1 a (List.mem_of_mem_head? (by rw [ha]; rfl))).2.2)
  rw [hdrop1]
  have hdrop2 : s.data.reverse.dropWhile (fun c => isTrimChar c) = s.data.reverse :=
    dropWhile_eq_self_of _ _ (fun a ha =>
      (h1 a (List.mem_reverse.mp (List.mem_of_mem_head? (by rw [ha]; rfl)))).2.2)
  rw [hdrop2, List.reverse_reverse]
  rw [List.take_of_length_le hlen]
  rw [if_neg hne]

/-! ## Size-normalizer claim (C4) -/

/-- C4: `parseSize` is the identity on the four canonical values; any
input whose lower-cased, whitespace-free form is a recognized
aspect-ratio token maps to the token's canonical size (with the
documented table); every other input passes through unchanged. -/
theorem claim4_parseSize_spec :
    (∀ s ∈ canonicalSizes, parseSize s = s) ∧
    (∀ s v, aspectRatioMap (normalizeSizeToken s) = some v → parseSize s = v) ∧
    (∀ s, s ∉ canonicalSizes → aspectRatioMap (normalizeSizeToken s) = none → parseSize s = s) ∧
    (parseSize "1:1" = "1024x1024" ∧ parseSize "square" = "1024x1024" ∧
     parseSize "4:3" = "1024x1024" ∧ parseSize "3:4" = "1024x1024" ∧
     parseSize "16:9" = "1536x1024" ∧ parseSize "landscape" = "1536x1024" ∧
     parseSize "3:2" = "1536x1024" ∧ parseSize "9:16" = "1024x1536" ∧
     parseSize "portrait" = "1024x1536" ∧ parseSize "2:3" = "1024x1536") := by
  refine ⟨?_, ?_, ?_, ?_⟩
  · intro s hs
    rw [parseSize, if_pos hs]
  · intro s v h
    by_cases hs : s ∈ canonicalSizes
    · exfalso
      have h4 : s = "1024x1024" ∨ s = "1536x1024" ∨ s = "1024x1536" ∨ s = "auto" := by
        simpa [canonicalSizes] using hs
      rcases h4 with rfl | rfl | rfl | rfl
      · rw [show aspectRatioMap (normalizeSizeToken "1024x1024") = none from by decide] at h
        cases h
      · rw [show aspectRatioMap (normalizeSizeToken "1536x1024") = none from by decide] at h
        cases h
      · rw [show aspectRatioMap (normalizeSizeToken "1024x1536") = none from by decide] at h
        cases h
      · rw [show aspectRatioMap (normalizeSizeToken "auto") = none from by decide] at h
        cases h
    · rw [parseSize, if_neg hs, h]
  · intro s hs hm
    rw [parseSize, if_neg hs, hm]
  · decide

/-- Witness for C4 at concrete inputs of all three kinds. -/
theorem claim4_parseSize_spec_witness :
    parseSize "1024x1024" = "1024x1024" ∧ parseSize "16:9" = "1536x1024" ∧
    parseSize "junk" = "junk" :=
  ⟨claim4_parseSize_spec.1 "1024x1024" (by decide),
   claim4_parseSize_spec.2.1 "16:9" "1536x1024" (by decide),
   claim4_parseSize_spec.2.2.1 "junk" (by decide) (by decide)⟩

/-! ## Filename-sanitizer claims (C7, C8) -/

/-- C7 counterexample: the sanitizer passes interior `..` through —
`sanitizeFilename "a..b" = "a..b"` contains the traversal sequence, so
the output is not free of `".."`. -/
theorem claim7_traversal_cex :
    sanitizeFilename "a..b" = "a..b" ∧
    containsDotDot (sanitizeFilename "a..b").data = true := by
  constructor
  · rfl
  · rfl

/-- C7 (amended): for every input the sanitizer's output is non-empty,
contains no path separator, and does not begin with a dot; interior
`".."` can remain (see the counterexample), but with no separators it
cannot form a traversal path component. -/
theorem claim7_sanitize_safety (s : String) :
    sanitizeFilename s ≠ "" ∧
    (∀ c ∈ (sanitizeFilename s).data, c ≠ '/' ∧ c ≠ '\\') ∧
    (∀ c, (sanitizeFilename s).data.head? = some c → c ≠ '.') := by
  refine ⟨sanitizeFilename_ne_empty s, ?_, ?_⟩
  · intro c hc
    exact ⟨(sanitizeFilename_chars s c hc).1, (sanitizeFilename_chars s c hc).2.1⟩
  · intro c hc
    intro hdot
    have := sanitizeFilename_head s c hc
    rw [hdot] at this
    exact absurd this (by decide)

/-- Witness for C7 at a concrete traversal-attempt input. -/
theorem claim7_sanitize_safety_witness :
    sanitizeFilename "../etc/passwd" ≠ "" ∧
    ('/' : Char) ∉ (sanitizeFilename "../etc/passwd").data :=
  ⟨(claim7_sanitize_safety "../etc/passwd").1,
   fun h => ((claim7_sanitize_safety "../etc/passwd").2.1 '/' h).1 rfl⟩

/-- C8 counterexample: the empty string satisfies the claim's premises
(length at most 200, only plain characters — vacuously), yet the
sanitizer returns the default token instead of the string itself. -/
theorem claim8_empty_cex :
    ("" : String).length ≤ 200 ∧ (∀ c ∈ ("" : String).data, plainFileChar c = true) ∧
    sanitizeFilename "" = "image" ∧ sanitizeFilename "" ≠ "" := by
  refine ⟨by decide, by decide, rfl, by decide⟩

/-- C8 (amended): on *nonempty* strings of at most 200 alphanumeric,
hyphen or underscore characters the sanitizer is the identity; for every
input the output contains no separators and no control characters; and
the empty string maps to the default token `"image"`. -/
theorem claim8_sanitize_spec :
    (∀ s : String, s ≠ "" → s.length ≤ 200 →
      (∀ c ∈ s.data, plainFileChar c = true) → sanitizeFilename s = s) ∧
    (∀ s : String, ∀ c ∈ (sanitizeFilename s).data,
      c ≠ '/' ∧ c ≠ '\\' ∧ ¬ (c.toNat < 0x20)) ∧
    sanitizeFilename "" = "image" := by
  refine ⟨?_, sanitizeFilename_chars, rfl⟩
  intro s hne hlen hchars
  apply sanitizeFilename_id s ?_ ?_ hchars
  · intro h
    apply hne
    cases s
    simp at h
    rw [h]
  · exact hlen

/-- Witness for C8: identity on a plain name, control characters
stripped, default on empty. -/
theorem claim8_sanitize_spec_witness :
    sanitizeFilename "photo_1-cat" = "photo_1-cat" ∧ sanitizeFilename "" = "image" :=
  ⟨claim8_sanitize_spec.1 "photo_1-cat" (by decide) (by decide) (by decide),
   claim8_sanitize_spec.2.2⟩

/-! ## Path-model lemmas -/

theorem takeWhile_append_stop {α : Type} (p : α → Bool) (l1 : List α) (x : α) (l2 : List α)
    (h1 : ∀ a ∈ l1, p a = true) (hx : p x = false) :
    (l1 ++ x :: l2).takeWhile p = l1 := by
  induction l1 with
  | nil => simp [List.takeWhile_cons, hx]
  | cons a t ih =>
    simp only [List.cons_append, List.takeWhile_cons, h1 a (by simp), if_true]
    rw [ih (fun b hb => h1 b (by simp [hb]))]

theorem dropWhile_append_stop {α : Type} (p : α → Bool) (l1 : List α) (x : α) (l2 : List α)
    (h1 : ∀ a ∈ l1, p a = true) (hx : p x = false) :
    (l1 ++ x :: l2).dropWhile p = x :: l2 := by
  induction l1 with
  | nil => simp [List.dropWhile_cons, hx]
  | cons a t ih =>
    simp only [List.cons_append, List.dropWhile_cons, h1 a (by simp), if_true]
    exact ih (fun b hb => h1 b (by simp [hb]))

theorem dropWhile_eq_nil_of_all {α : Type} (p : α → Bool) (l : List α)
    (h : ∀ a ∈ l, p a = true) : l.dropWhile p = [] := by
  induction l with
  | nil => rfl
  | cons a t ih =>
    rw [List.dropWhile_cons, if_pos (h a (by simp))]
    exact ih (fun b hb => h b (by simp [hb]))

theorem getLast?_cons_of_ne_nil {α : Type} (a : α) {l : List α} (h : l ≠ []) :
    (a :: l).getLast? = l.getLast? := by
  cases l with
  | nil => exact absurd rfl h
  | cons y ys => simp [List.getLast?_cons_cons]

theorem getLast?_append_right {α : Type} (l1 l2 : List α) (h : l2 ≠ []) :
    (l1 ++ l2).getLast? = l2.getLast? := by
  induction l1 with
  | nil => rfl
  | cons a t ih =>
    rw [List.cons_append, getLast?_cons_of_ne_nil, ih]
    intro hc
    rcases List.append_eq_nil.mp hc with ⟨_, h2⟩
    exact h h2

/-- `splitExt` on a dot-free basename: no extension. -/
theorem splitExt_no_dot (b : List Char) (h : '.' ∉ b) : splitExt b = (b, []) := by
  have hd : b.reverse.dropWhile (fun c => decide (c ≠ '.')) = [] :=
    dropWhile_eq_nil_of_all _ _ (fun a ha => by
      simp only [decide_eq_true_eq]
      intro hc
      exact h (hc ▸ List.mem_reverse.mp ha))
  have hne2 : b ≠ ['.', '.'] := fun hh => h (by rw [hh]; simp)
  simp only [splitExt, if_neg hne2, hd]

/-- `splitExt` on `name ++ "." ++ ext-tail` with a nonempty dot-free name
and a dot-free tail: the extension starts at that dot. -/
theorem splitExt_with_dot (nm e1 : List Char) (hnm : nm ≠ []) (hnmd : '.' ∉ nm)
    (he1 : '.' ∉ e1) : splitExt (nm ++ '.' :: e1) = (nm, '.' :: e1) := by
  have hne2 : nm ++ '.' :: e1 ≠ ['.', '.'] := by
    intro h
    cases nm with
    | nil => exact hnm rfl
    | cons a t =>
      rw [List.cons_append] at h
      have h1 : a = '.' := by
        have := congrArg (fun l => List.head? l) h
        simpa using this
      exact hnmd (by simp [h1])
  have hrev : (nm ++ '.' :: e1).reverse = e1.reverse ++ '.' :: nm.reverse := by
    simp [List.reverse_append]
  have hall : ∀ a ∈ e1.reverse, decide (a ≠ '.') = true := by
    intro a ha
    simp only [decide_eq_true_eq]
    intro hc
    exact he1 (hc ▸ List.mem_reverse.mp ha)
  have ht := takeWhile_append_stop (fun c => decide (c ≠ '.')) e1.reverse '.' nm.reverse
    hall (by decide)
  have hd := dropWhile_append_stop (fun c => decide (c ≠ '.')) e1.reverse '.' nm.reverse
    hall (by decide)
  simp only [splitExt, if_neg hne2, hrev, ht, hd]
  rw [if_neg (by simpa using hnm)]
  simp

theorem head?_append_left {α : Type} (l1 l2 : List α) (h : l1 ≠ []) :
    (l1 ++ l2).head? = l1.head? := by
  cases l1 with
  | nil => exact absurd rfl h
  | cons a t => rfl

/-- `posixParseCore` of a well-formed absolute path `dir ++ "/" ++ base`:
`dir` comes back verbatim, the basename is split by `splitExt`. -/
theorem posixParseCore_append (dtail b : List Char) (hb : b ≠ []) (hbs : '/' ∉ b) :
    posixParseCore ('/' :: (dtail ++ '/' :: b)) =
      ⟨⟨'/' :: dtail⟩, ⟨(splitExt b).1⟩, ⟨(splitExt b).2⟩⟩ := by
  have hbr : b.reverse ≠ [] := by simpa using hb
  have hnosl : ∀ a ∈ b.reverse, decide (a ≠ '/') = true := by
    intro a ha
    simp only [decide_eq_true_eq]
    intro hc
    exact hbs (hc ▸ List.mem_reverse.mp ha)
  have hslash : ∀ a, (b.reverse ++ '/' :: dtail.reverse).head? = some a →
      decide (a = '/') = false := by
    intro a ha
    rw [head?_append_left _ _ hbr] at ha
    have hma : a ∈ b := List.mem_reverse.mp (List.mem_of_mem_head? (by rw [ha]; rfl))
    simp only [decide_eq_false_iff_not]
    intro hc
    exact hbs (hc ▸ hma)
  simp only [posixParseCore, reduceIte]
  rw [show ((dtail ++ '/' :: b).reverse) = b.reverse ++ '/' :: dtail.reverse by
    simp [List.reverse_append]]
  rw [dropWhile_eq_self_of _ _ hslash]
  simp only [List.reverse_reverse]
  rw [takeWhile_append_stop _ _ _ _ hnosl (by decide)]
  rw [dropWhile_append_stop _ _ _ _ hnosl (by decide)]
  rcases hse : splitExt b with ⟨nm, e⟩
  simp [hse]

theorem mem_of_getLast? {α : Type} (l : List α) (c : α) (h : l.getLast? = some c) :
    c ∈ l := by
  induction l with
  | nil => simp at h
  | cons a t ih =>
    cases t with
    | nil =>
      simp at h
      simp [h]
    | cons y ys =>
      rw [getLast?_cons_of_ne_nil _ (by simp)] at h
      exact List.mem_cons_of_mem a (ih h)

/-- The string fields of a clean segment, at the character-list level. -/
theorem cleanSeg_data {s : String} (h : cleanSeg s) :
    s.data ≠ [] ∧ '/' ∉ s.data ∧ s.data ≠ ['.'] ∧ s.data ≠ ['.', '.'] := by
  obtain ⟨h1, h2, h3, h4⟩ := h
  refine ⟨?_, h2, ?_, ?_⟩
  · intro hc
    exact h1 (String.ext hc)
  · intro hc
    exact h3 (String.ext hc)
  · intro hc
    exact h4 (String.ext hc)

/-- Folding `normStep` over clean segments appends them all. -/
theorem foldl_normStep_clean (isAbs : Bool) (parts : List (List Char)) :
    ∀ acc, (∀ p ∈ parts, p ≠ [] ∧ p ≠ ['.'] ∧ p ≠ ['.', '.']) →
      parts.foldl (normStep isAbs) acc = acc ++ parts := by
  induction parts with
  | nil => intro acc _; simp
  | cons p t ih =>
    intro acc h
    obtain ⟨hp1, hp2, hp3⟩ := h p (by simp)
    have hstep : normStep isAbs acc p = acc ++ [p] := by
      rw [normStep, if_neg (by simp [hp1, hp2]), if_neg hp3]
    rw [List.foldl_cons, hstep, ih _ (fun q hq => h q (by simp [hq]))]
    simp

/-- Splitting the join of separator-free parts recovers the parts. -/
theorem splitOnChar_joinSep (parts : List (List Char))
    (hps : parts ≠ []) (hnosep : ∀ p ∈ parts, '/' ∉ p) :
    splitOnChar '/' (joinSep '/' parts) = parts := by
  induction parts with
  | nil => exact absurd rfl hps
  | cons p rest ih =>
    cases rest with
    | nil => exact splitOnChar_no_sep _ _ (hnosep p (by simp))
    | cons q rest' =>
      have hstep : joinSep '/' (p :: q :: rest') = p ++ '/' :: joinSep '/' (q :: rest') := rfl
      rw [hstep, splitOnChar_append_sep _ _ _ (hnosep p (by simp))]
      rw [ih (by simp) (fun r hr => hnosep r (by simp [hr]))]

theorem joinSep_ne_nil (parts : List (List Char)) (hps : parts ≠ [])
    (hhead : ∀ p ∈ parts, p ≠ []) : joinSep '/' parts ≠ [] := by
  cases parts with
  | nil => exact absurd rfl hps
  | cons p rest =>
    cases rest with
    | nil => exact hhead p (by simp)
    | cons q rest' =>
      show p ++ '/' :: joinSep '/' (q :: rest') ≠ []
      simp

/-- The joined segments end with a non-separator character. -/
theorem joinSep_getLast (parts : List (List Char)) (hps : parts ≠ [])
    (hne : ∀ p ∈ parts, p ≠ []) (hnosep : ∀ p ∈ parts, '/' ∉ p) :
    ∃ c, (joinSep '/' parts).getLast? = some c ∧ c ≠ '/' := by
  induction parts with
  | nil => exact absurd rfl hps
  | cons p rest ih =>
    cases rest with
    | nil =>
      obtain ⟨c, hc⟩ : ∃ c, p.getLast? = some c := by
        cases hp : p with
        | nil => exact absurd hp (hne p (by simp))
        | cons y ys => exact ⟨(y :: ys).getLast (by simp), List.getLast?_eq_getLast _ _⟩
      exact ⟨c, hc, fun hcc => hnosep p (by simp) (hcc ▸ mem_of_getLast? _ _ hc)⟩
    | cons q rest' =>
      obtain ⟨c, hc, hcc⟩ := ih (by simp) (fun r hr => hne r (by simp [hr]))
        (fun r hr => hnosep r (by simp [hr]))
      refine ⟨c, ?_, hcc⟩
      show (p ++ '/' :: joinSep '/' (q :: rest')).getLast? = some c
      rw [getLast?_append_right _ _ (by simp), getLast?_cons_of_ne_nil _ ?_, hc]
      exact joinSep_ne_nil _ (by simp) (fun r hr => hne r (by simp [hr]))

/-- Node's `normalize` is the identity on an absolute path made of clean
segments. -/
theorem posixNormalizeCore_clean (parts : List (List Char)) (hps : parts ≠ [])
    (hclean : ∀ p ∈ parts, p ≠ [] ∧ '/' ∉ p ∧ p ≠ ['.'] ∧ p ≠ ['.', '.']) :
    posixNormalizeCore ('/' :: joinSep '/' parts) = '/' :: joinSep '/' parts := by
  have hne : ∀ p ∈ parts, p ≠ [] := fun p hp => (hclean p hp).1
  have hnosep : ∀ p ∈ parts, '/' ∉ p := fun p hp => (hclean p hp).2.1
  obtain ⟨lc, hlc, hlcne⟩ := joinSep_getLast parts hps hne hnosep
  have hJne : joinSep '/' parts ≠ [] := joinSep_ne_nil parts hps hne
  rw [posixNormalizeCore]
  rw [splitOnChar_sep_cons, splitOnChar_joinSep parts hps hnosep]
  rw [List.foldl_cons]
  rw [show normStep (decide ('/' = '/')) [] [] = [] from rfl]
  rw [foldl_normStep_clean _ _ [] (fun p hp =>
    ⟨(hclean p hp).1, (hclean p hp).2.2.1, (hclean p hp).2.2.2⟩)]
  rw [List.nil_append]
  rw [if_neg hJne]
  have hcond : ('/' :: joinSep '/' parts).getLast? = some lc := by
    rw [getLast?_cons_of_ne_nil _ hJne, hlc]
  simp only [hcond]
  simp [hlcne]

/-- `mkAbsDir` produces `'/'`-joined segments. -/
theorem mkAbsDir_data (segs : List String) (hsegs : segs ≠ []) :
    (mkAbsDir segs).data = '/' :: joinSep '/' (segs.map String.data) := by
  have hgen : ∀ (ss : List String) (acc : String),
      (ss.foldl (fun a s => a ++ "/" ++ s) acc).data =
        acc.data ++ (ss.map (fun s => '/' :: s.data)).flatten := by
    intro ss
    induction ss with
    | nil => intro acc; simp
    | cons s t ih =>
      intro acc
      rw [List.foldl_cons, ih]
      simp [String.data_append, List.flatten_cons]
  have hjoin : ∀ (ss : List String), ss ≠ [] →
      (ss.map (fun s => '/' :: s.data)).flatten =
        '/' :: joinSep '/' (ss.map String.data) := by
    intro ss
    induction ss with
    | nil => intro h; exact absurd rfl h
    | cons s t ih =>
      intro _
      cases t with
      | nil => simp [joinSep]
      | cons u v =>
        rw [List.map_cons, List.flatten_cons, ih (by simp)]
        simp only [List.map_cons]
        rw [show joinSep '/' (s.data :: u.data :: List.map String.data v) =
            s.data ++ '/' :: joinSep '/' (u.data :: List.map String.data v) from rfl]
        simp
  rw [mkAbsDir, hgen, hjoin segs hsegs]
  rfl

/-- `path.join` of a clean absolute directory and a clean final segment
is plain concatenation with `/`. -/
theorem posixJoin_clean (segs : List String) (x : String)
    (hsegs : segs ≠ []) (hclean : ∀ s ∈ segs, cleanSeg s) (hx : cleanSeg x) :
    posixJoin (mkAbsDir segs) x = mkAbsDir segs ++ "/" ++ x := by
  have hD := mkAbsDir_data segs hsegs
  have hDne : mkAbsDir segs ≠ "" := by
    intro hc
    rw [hc] at hD
    exact List.noConfusion hD
  obtain ⟨hx1, hx2, hx3, hx4⟩ := cleanSeg_data hx
  rw [posixJoin, if_neg hDne, if_neg hx.1]
  apply String.ext
  show posixNormalizeCore (mkAbsDir segs ++ "/" ++ x).data = _
  have hdata : (mkAbsDir segs ++ "/" ++ x).data =
      '/' :: joinSep '/' (segs.map String.data ++ [x.data]) := by
    rw [joinSep_append_singleton _ _ _ (by simpa using hsegs)]
    simp [String.data_append, hD]
  rw [hdata, posixNormalizeCore_clean _ (by simp) (fun p hp => by
    rcases List.mem_append.mp hp with hp | hp
    · rcases List.mem_map.mp hp with ⟨s, hs, rfl⟩
      have h := cleanSeg_data (hclean s hs)
      exact ⟨h.1, h.2.1, h.2.2.1, h.2.2.2⟩
    · rcases List.mem_singleton.mp hp with rfl
      exact ⟨hx1, hx2, hx3, hx4⟩)]

theorem str_append_assoc (a b c : String) : a ++ b ++ c = a ++ (b ++ c) :=
  String.ext (by simp [String.data_append])

theorem data_ne_nil_of_ne_empty {s : String} (h : s ≠ "") : s.data ≠ [] :=
  fun hc => h (String.ext hc)

theorem cleanSeg_of_data (x : String) (h1 : x.data ≠ []) (h2 : '/' ∉ x.data)
    (h3 : x.data.head? ≠ some '.') : cleanSeg x := by
  refine ⟨fun hh => h1 (congrArg String.data hh), h2, ?_, ?_⟩
  · intro hh
    exact h3 (by rw [hh]; rfl)
  · intro hh
    exact h3 (by rw [hh]; rfl)

theorem head_ne_dot_append (nm : String) (rest : List Char) (hne : nm.data ≠ [])
    (hdot : '.' ∉ nm.data) : (nm.data ++ rest).head? ≠ some '.' := by
  rw [head?_append_left _ _ hne]
  intro h
  exact hdot (List.mem_of_mem_head? (by rw [h]; rfl))

theorem repr_le10_chars (n : Nat) (h : n ≤ 10) :
    '/' ∉ (Nat.repr n).data ∧ '.' ∉ (Nat.repr n).data := by
  interval_cases n <;> exact (by decide)

/-- `posixParse` of a clean absolute directory joined with a basename. -/
theorem posixParse_mkAbsDir (segs : List String) (hsegs : segs ≠ []) (b : String)
    (hb : b.data ≠ []) (hbs : '/' ∉ b.data) :
    posixParse (mkAbsDir segs ++ "/" ++ b) =
      ⟨mkAbsDir segs, ⟨(splitExt b.data).1⟩, ⟨(splitExt b.data).2⟩⟩ := by
  show posixParseCore (mkAbsDir segs ++ "/" ++ b).data = _
  have hdata : (mkAbsDir segs ++ "/" ++ b).data =
      '/' :: (joinSep '/' (segs.map String.data) ++ '/' :: b.data) := by
    simp [String.data_append, mkAbsDir_data segs hsegs]
  rw [hdata, posixParseCore_append _ _ hb hbs]
  have : (⟨'/' :: joinSep '/' (segs.map String.data)⟩ : String) = mkAbsDir segs :=
    String.ext (by rw [mkAbsDir_data segs hsegs])
  rw [this]

theorem cleanSeg_concat (nm : String) (rest : List Char)
    (hnm : nm.data ≠ []) (hdot : '.' ∉ nm.data) (hsl : '/' ∉ nm.data)
    (hslr : '/' ∉ rest) (x : String) (hx : x.data = nm.data ++ rest) : cleanSeg x := by
  apply cleanSeg_of_data
  · rw [hx]
    simp [hnm]
  · rw [hx]
    intro hmem
    rcases List.mem_append.mp hmem with h | h
    · exact hsl h
    · exact hslr h
  · rw [hx]
    exact head_ne_dot_append nm rest hnm hdot

/-! ## File-path derivation claim (C3) -/

/-- C3 counterexample: for a single payload the `create-image` handler
does not keep the base path's extension — with base `/tmp/x.png` and a
jpeg payload it writes `/tmp/x.jpg`, not `/tmp/x.png`. -/
theorem claim3_ext_forced_cex :
    createFilePath "/tmp/x.png" "jpg" 1 0 = "/tmp/x.jpg" ∧
    ("/tmp/x.jpg" : String) ≠ "/tmp/x.png" := ⟨rfl, by decide⟩

/-- C3 (amended): over well-formed absolute base paths
`/seg_1/.../seg_k/name[.e1]` (clean segments, dot-free `name`) and at
most ten payloads, the handlers derive `dir/name[_i][.ext']` where
`edit-image` preserves the base path's extension when present and
defaults to the payload's type otherwise, while `create-image` always
forces the payload's type; with base `/tmp/x.png` and three png payloads
both produce `/tmp/x_1.png`, `/tmp/x_2.png`, `/tmp/x_3.png` in order. -/
theorem claim3_filePath_spec (segs : List String) (nm ext e1 : String) (cnt i : Nat)
    (hsegs : segs ≠ []) (hclean : ∀ s ∈ segs, cleanSeg s)
    (hnm : nm ≠ "") (hnmsl : '/' ∉ nm.data) (hnmdot : '.' ∉ nm.data)
    (hext : '/' ∉ ext.data) (he1d : '.' ∉ e1.data) (he1s : '/' ∉ e1.data)
    (hcnt : cnt ≤ 10) (hi : i < cnt) :
    (editFilePath (mkAbsDir segs ++ "/" ++ nm) ext cnt i =
       mkAbsDir segs ++ "/" ++
         (nm ++ (if 1 < cnt then "_" ++ Nat.repr (i + 1) else "") ++ "." ++ ext) ∧
     createFilePath (mkAbsDir segs ++ "/" ++ nm) ext cnt i =
       mkAbsDir segs ++ "/" ++
         (nm ++ (if 1 < cnt then "_" ++ Nat.repr (i + 1) else "") ++ "." ++ ext)) ∧
    (editFilePath (mkAbsDir segs ++ "/" ++ nm ++ "." ++ e1) ext cnt i =
       mkAbsDir segs ++ "/" ++
         (nm ++ (if 1 < cnt then "_" ++ Nat.repr (i + 1) else "") ++ "." ++ e1) ∧
     createFilePath (mkAbsDir segs ++ "/" ++ nm ++ "." ++ e1) ext cnt i =
       mkAbsDir segs ++ "/" ++
         (nm ++ (if 1 < cnt then "_" ++ Nat.repr (i + 1) else "") ++ "." ++ ext)) ∧
    (∀ j, j < 3 →
      editFilePath "/tmp/x.png" "png" 3 j = "/tmp/x_" ++ Nat.repr (j + 1) ++ ".png" ∧
      createFilePath "/tmp/x.png" "png" 3 j = "/tmp/x_" ++ Nat.repr (j + 1) ++ ".png") := by
  have hnmd := data_ne_nil_of_ne_empty hnm
  obtain ⟨hrs, hrd⟩ := repr_le10_chars (i + 1) (by omega)
  have hp0 : posixParse (mkAbsDir segs ++ "/" ++ nm) = ⟨mkAbsDir segs, nm, ""⟩ := by
    rw [posixParse_mkAbsDir segs hsegs nm hnmd hnmsl, splitExt_no_dot _ hnmdot]
  have hb1 : (nm ++ ("." ++ e1)).data = nm.data ++ '.' :: e1.data := by
    simp [String.data_append]
  have hb1s : '/' ∉ (nm ++ ("." ++ e1)).data := by
    rw [hb1]
    intro hmem
    rcases List.mem_append.mp hmem with h | h
    · exact hnmsl h
    · rcases List.mem_cons.mp h with h | h
      · exact absurd h (by decide)
      · exact he1s h
  have hp1 : posixParse (mkAbsDir segs ++ "/" ++ nm ++ "." ++ e1) =
      ⟨mkAbsDir segs, nm, "." ++ e1⟩ := by
    rw [str_append_assoc (mkAbsDir segs ++ "/" ++ nm) "." e1,
        str_append_assoc (mkAbsDir segs ++ "/") nm ("." ++ e1)]
    rw [posixParse_mkAbsDir segs hsegs (nm ++ ("." ++ e1))
      (by rw [hb1]; simp [hnmd]) hb1s]
    rw [hb1, splitExt_with_dot nm.data e1.data hnmd hnmdot he1d]
    rfl
  -- cleanliness of the derived basenames
  have hxm : ∀ tail : String, '/' ∉ tail.data →
      cleanSeg (nm ++ "_" ++ Nat.repr (i + 1) ++ tail) := by
    intro tail htail
    apply cleanSeg_concat nm ('_' :: (Nat.repr (i + 1)).data ++ tail.data)
      hnmd hnmdot hnmsl
    · intro hmem
      rcases List.mem_cons.mp hmem with h | h
      · exact absurd h (by decide)
      · rcases List.mem_append.mp h with h | h
        · exact hrs h
        · exact htail h
    · simp [String.data_append]
  have hxs : ∀ tail : String, '/' ∉ tail.data → cleanSeg (nm ++ tail) := by
    intro tail htail
    apply cleanSeg_concat nm tail.data hnmd hnmdot hnmsl htail
    simp [String.data_append]
  have hdotext : '/' ∉ ("." ++ ext).data := by
    intro hmem
    rw [String.data_append] at hmem
    rcases List.mem_append.mp hmem with h | h
    · exact absurd h (by decide)
    · exact hext h
  have hdote1 : '/' ∉ ("." ++ e1).data := by
    intro hmem
    rw [String.data_append] at hmem
    rcases List.mem_append.mp hmem with h | h
    · exact absurd h (by decide)
    · exact he1s h
  refine ⟨⟨?_, ?_⟩, ⟨?_, ?_⟩, ?_⟩
  · -- edit, no extension on the base path: payload extension is used
    simp only [editFilePath, hp0]
    norm_num
    by_cases hc1 : 1 < cnt
    · simp only [if_pos hc1]
      rw [posixJoin_clean segs _ hsegs hclean (hxm ("." ++ ext) hdotext)]
      exact String.ext (by simp [String.data_append])
    · simp only [if_neg hc1]
      rw [posixJoin_clean segs _ hsegs hclean (hxs ("." ++ ext) hdotext)]
      exact String.ext (by simp [String.data_append])
  · -- create, no extension on the base path
    simp only [createFilePath, hp0]
    by_cases hc1 : 1 < cnt
    · simp only [if_pos hc1]
      rw [str_append_assoc (nm ++ "_" ++ Nat.repr (i + 1)) "." ext]
      rw [posixJoin_clean segs _ hsegs hclean (hxm ("." ++ ext) hdotext)]
      exact String.ext (by simp [String.data_append])
    · simp only [if_neg hc1]
      rw [str_append_assoc nm "." ext]
      rw [posixJoin_clean segs _ hsegs hclean (hxs ("." ++ ext) hdotext)]
      exact String.ext (by simp [String.data_append])
  · -- edit, extension present on the base path: it is preserved
    have hdotne : ¬("." ++ e1 = "") := fun hc => by
      simpa [String.data_append] using congrArg String.data hc
    simp only [editFilePath, hp1]
    norm_num
    rw [if_neg hdotne]
    by_cases hc1 : 1 < cnt
    · simp only [if_pos hc1]
      rw [posixJoin_clean segs _ hsegs hclean (hxm ("." ++ e1) hdote1)]
      exact String.ext (by simp [String.data_append])
    · simp only [if_neg hc1]
      rw [posixJoin_clean segs _ hsegs hclean (hxs ("." ++ e1) hdote1)]
      exact String.ext (by simp [String.data_append])
  · -- create, extension present on the base path: it is replaced
    simp only [createFilePath, hp1]
    by_cases hc1 : 1 < cnt
    · simp only [if_pos hc1]
      rw [str_append_assoc (nm ++ "_" ++ Nat.repr (i + 1)) "." ext]
      rw [posixJoin_clean segs _ hsegs hclean (hxm ("." ++ ext) hdotext)]
      exact String.ext (by simp [String.data_append])
    · simp only [if_neg hc1]
      rw [str_append_assoc nm "." ext]
      rw [posixJoin_clean segs _ hsegs hclean (hxs ("." ++ ext) hdotext)]
      exact String.ext (by simp [String.data_append])
  · -- the /tmp/x.png example, three payloads
    intro j hj
    interval_cases j
    · exact ⟨rfl, rfl⟩
    · exact ⟨rfl, rfl⟩
    · exact ⟨rfl, rfl⟩

/-- Witness for C3 at concrete inputs: the edit handler keeps `.png`,
the create handler forces `.jpg`. -/
theorem claim3_filePath_spec_witness :
    editFilePath "/tmp/x.png" "jpg" 1 0 = "/tmp/x.png" ∧
    createFilePath "/tmp/x.png" "jpg" 1 0 = "/tmp/x.jpg" := by
  have h := claim3_filePath_spec ["tmp"] "x" "jpg" "png" 1 0 (by decide) (by decide)
    (by decide) (by decide) (by decide) (by decide) (by decide) (by decide) (by decide)
    (by decide)
  exact ⟨h.2.1.1, h.2.1.2⟩

/-! ## Output-router lemmas and claims (C1, C10) -/

theorem map_congr_own {α β : Type} (f g : α → β) (l : List α)
    (h : ∀ a ∈ l, f a = g a) : l.map f = l.map g := by
  induction l with
  | nil => rfl
  | cons a t ih =>
    simp only [List.map_cons, h a (by simp), ih (fun x hx => h x (by simp [hx]))]

/-- The router measures exactly the decoded sizes of the payloads. -/
theorem payload_sizes (bufs : List (List Nat)) :
    ((bufs.map base64Encode).map base64ByteLength).sum = (bufs.map List.length).sum := by
  rw [List.map_map]
  congr 1
  exact map_congr_own _ _ _ (fun b _ => byteLength_encode b)

theorem createRespond_inline (a : CreateArgs) (payloads : List String) (env : Env)
    (hout : defaultOutput a.output = OutputMode.base64)
    (hle : (payloads.map base64ByteLength).sum ≤ maxResponseSize) :
    createRespond a payloads env =
      .inline (payloads.map (fun p => (p, mimeOfFormat a.output_format))) := by
  unfold createRespond
  rw [hout]
  dsimp only
  rw [if_neg (fun hc => absurd hc.2 (not_lt.mpr hle))]

theorem editRespond_inline (a : EditArgs) (payloads : List String) (env : Env)
    (hout : defaultOutput a.output = OutputMode.base64)
    (hle : (payloads.map base64ByteLength).sum ≤ maxResponseSize) :
    editRespond a payloads env = .inline (payloads.map (fun p => (p, "image/png"))) := by
  unfold editRespond
  rw [hout]
  dsimp only
  rw [if_neg (fun hc => absurd hc.2 (not_lt.mpr hle))]

theorem createRespond_files (a : CreateArgs) (payloads : List String) (env : Env)
    (hgt : maxResponseSize < (payloads.map base64ByteLength).sum) :
    ∃ paths, createRespond a payloads env = .files paths := by
  unfold createRespond
  cases h : defaultOutput a.output with
  | base64 =>
    dsimp only
    rw [if_pos ⟨rfl, hgt⟩]
    exact ⟨_, rfl⟩
  | fileOutput =>
    dsimp only
    rw [if_neg (fun hc => OutputMode.noConfusion hc.1)]
    exact ⟨_, rfl⟩

theorem editRespond_files (a : EditArgs) (payloads : List String) (env : Env)
    (hgt : maxResponseSize < (payloads.map base64ByteLength).sum) :
    ∃ paths, editRespond a payloads env = .files paths := by
  unfold editRespond
  cases h : defaultOutput a.output with
  | base64 =>
    dsimp only
    rw [if_pos ⟨rfl, hgt⟩]
    exact ⟨_, rfl⟩
  | fileOutput =>
    dsimp only
    rw [if_neg (fun hc => OutputMode.noConfusion hc.1)]
    exact ⟨_, rfl⟩

/-- C1: with inline (`"base64"`) delivery requested, a response whose
payloads decode to at most 1,048,576 bytes in total is delivered inline,
and one whose total exceeds 1,048,576 bytes is switched to file
delivery, in both handlers. -/
theorem claim1_inline_size_threshold (a : CreateArgs) (ae : EditArgs)
    (bufs : List (List Nat)) (env : Env) (_hB : ∀ b ∈ bufs, bytesOk b)
    (hout : defaultOutput a.output = OutputMode.base64)
    (hout2 : defaultOutput ae.output = OutputMode.base64) :
    ((bufs.map List.length).sum ≤ maxResponseSize →
      (∃ items, createRespond a (bufs.map base64Encode) env = .inline items) ∧
      (∃ items, editRespond ae (bufs.map base64Encode) env = .inline items)) ∧
    (maxResponseSize < (bufs.map List.length).sum →
      (∃ paths, createRespond a (bufs.map base64Encode) env = .files paths) ∧
      (∃ paths, editRespond ae (bufs.map base64Encode) env = .files paths)) := by
  have hsz := payload_sizes bufs
  constructor
  · intro hle
    exact ⟨⟨_, createRespond_inline a _ env hout (by rw [hsz]; exact hle)⟩,
           ⟨_, editRespond_inline ae _ env hout2 (by rw [hsz]; exact hle)⟩⟩
  · intro hgt
    exact ⟨createRespond_files a _ env (by rw [hsz]; exact hgt),
           editRespond_files ae _ env (by rw [hsz]; exact hgt)⟩

/-- Witness for C1: three bytes stay inline; 1,048,577 bytes switch to
file delivery. -/
theorem claim1_inline_size_threshold_witness :
    (∃ items, createRespond { prompt := "p" } ([[1, 2, 3]].map base64Encode)
        ⟨"/home/u", true, none, 0⟩ = .inline items) ∧
    (∃ paths, editRespond { image := "/a.png", prompt := "p" }
        ([List.replicate 1048577 7].map base64Encode)
        ⟨"/home/u", true, none, 0⟩ = .files paths) :=
  ⟨((claim1_inline_size_threshold { prompt := "p" } { image := "/a.png", prompt := "p" }
      [[1, 2, 3]] ⟨"/home/u", true, none, 0⟩ (by decide) rfl rfl).1
      (by decide)).1,
   ((claim1_inline_size_threshold { prompt := "p" } { image := "/a.png", prompt := "p" }
      [List.replicate 1048577 7] ⟨"/home/u", true, none, 0⟩
      (by intro b hb
          rcases List.mem_singleton.mp hb with rfl
          intro x hx
          rw [List.eq_of_mem_replicate hx]
          omega) rfl rfl).2
      (by rw [List.map_cons, List.map_nil, List.sum_cons, List.sum_nil,
              List.length_replicate]
          norm_num [maxResponseSize])).2⟩

/-- C10: an omitted `output` argument defaults to inline delivery, and a
caller whose payloads stay within the threshold never gets file delivery
without requesting it. -/
theorem claim10_output_defaults_inline (a : CreateArgs) (ae : EditArgs)
    (bufs : List (List Nat)) (env : Env)
    (ha : a.output ≠ some OutputMode.fileOutput)
    (hae : ae.output ≠ some OutputMode.fileOutput)
    (hsum : (bufs.map List.length).sum ≤ maxResponseSize) :
    defaultOutput none = OutputMode.base64 ∧
    (∃ items, createRespond a (bufs.map base64Encode) env = .inline items) ∧
    (∃ items, editRespond ae (bufs.map base64Encode) env = .inline items) := by
  have hsz := payload_sizes bufs
  have hda : defaultOutput a.output = OutputMode.base64 := by
    cases h : a.output with
    | none => rfl
    | some m =>
      cases m with
      | base64 => rfl
      | fileOutput => exact absurd h ha
  have hdae : defaultOutput ae.output = OutputMode.base64 := by
    cases h : ae.output with
    | none => rfl
    | some m =>
      cases m with
      | base64 => rfl
      | fileOutput => exact absurd h hae
  exact ⟨rfl,
    ⟨_, createRespond_inline a _ env hda (by rw [hsz]; exact hsum)⟩,
    ⟨_, editRespond_inline ae _ env hdae (by rw [hsz]; exact hsum)⟩⟩

/-- Witness for C10 at concrete payloads. -/
theorem claim10_output_defaults_inline_witness :
    defaultOutput none = OutputMode.base64 ∧
    (∃ items, createRespond { prompt := "p" } ([[9]].map base64Encode)
        ⟨"/home/u", true, none, 0⟩ = .inline items) :=
  ⟨(claim10_output_defaults_inline { prompt := "p" } { image := "/a.png", prompt := "p" }
      [[9]] ⟨"/home/u", true, none, 0⟩ (by decide) (by decide) (by decide)).1,
   (claim10_output_defaults_inline { prompt := "p" } { image := "/a.png", prompt := "p" }
      [[9]] ⟨"/home/u", true, none, 0⟩ (by decide) (by decide) (by decide)).2.1⟩

/-! ## Validation claims (C6, C5, C2) -/

/-- C6: a `create-image` invocation with `background = "transparent"`
and `output_format = "jpeg"` fails with an `InvalidParameter` error, and
the result does not depend on the upstream oracle (no upstream call is
made). -/
theorem claim6_transparent_needs_png_webp (a : CreateArgs) (env : Env)
    (hbg : a.background = some Background.transparent)
    (hfmt : a.output_format = some OutputFormat.jpeg) :
    ∀ u1 u2 : GenParams → List String,
      createInvoke a u1 env = createInvoke a u2 env ∧
      isInvalidParameter (createInvoke a u1 env) = true := by
  have hv : ∃ msg, createValidate a = .error (.invalidParameter msg) := by
    unfold createValidate
    by_cases hsz : sizeInvalid (a.size.map parseSize) = true
    · exact ⟨_, by rw [if_pos hsz]⟩
    · refine ⟨"If background is 'transparent', output_format must be 'png' or 'webp'", ?_⟩
      rw [if_neg hsz, if_pos ⟨hbg, by rw [hfmt]; rfl, by rw [hfmt]; simp,
        by rw [hfmt]; simp⟩]
  obtain ⟨msg, hv⟩ := hv
  intro u1 u2
  by_cases hs : createShapeOk a = true
  · constructor
    · simp [createInvoke, hs, hv]
    · simp [createInvoke, hs, hv, isInvalidParameter]
  · constructor <;> simp [createInvoke, hs, isInvalidParameter]

/-- Witness for C6: the spec's scenario, evaluated. -/
theorem claim6_transparent_needs_png_webp_witness :
    isInvalidParameter (createInvoke
      { prompt := "p", background := some Background.transparent,
        output_format := some OutputFormat.jpeg }
      (fun _ => ["QUJD"]) ⟨"/home/u", true, none, 0⟩) = true :=
  (claim6_transparent_needs_png_webp _ ⟨"/home/u", true, none, 0⟩ rfl rfl
    (fun _ => ["QUJD"]) (fun _ => ["QUJD"])).2

/-- C5: an `edit-image` invocation whose `image` string matches neither
the absolute-path nor the base64/data-URL classification always fails
independently of the upstream oracle; when the rest of the arguments are
valid the error is the field-specific `InvalidInput` one, and likewise
for an unclassifiable `mask`. -/
theorem claim5_unclassifiable_input_rejected :
    (∀ (a : EditArgs) (env : Env) (u1 u2 : EditParams → List String),
      ¬ absolutePathCheckStr a.image → ¬ base64Check a.image →
      editInvoke a u1 env = editInvoke a u2 env ∧ isError (editInvoke a u1 env) = true) ∧
    (∀ (a : EditArgs) (env : Env) (u : EditParams → List String),
      editShapeOk a → editRefineOk a →
      ¬ absolutePathCheckStr a.image → ¬ base64Check a.image →
      editInvoke a u env = .error (.invalidInput
        "Invalid 'image' input: Must be an absolute path or a base64-encoded string.")) ∧
    (∀ (a : EditArgs) (env : Env) (u : EditParams → List String) (m : String),
      editShapeOk a → editRefineOk a →
      (absolutePathCheckStr a.image ∨ base64Check a.image) →
      a.mask = some m → ¬ absolutePathCheckStr m → ¬ base64Check m →
      editInvoke a u env = .error (.invalidInput
        "Invalid 'mask' input: Must be an absolute path or a base64-encoded string.")) := by
  refine ⟨?_, ?_, ?_⟩
  · intro a env u1 u2 habs hb64
    have h1 : absolutePathCheckStr a.image = false := by simpa using habs
    have h2 : base64Check a.image = false := by simpa using hb64
    have hbad : inputBad (some a.image) = true := by simp [inputBad, h1, h2]
    have hval : ∃ e, editValidate a = .error e := by
      unfold editValidate
      by_cases hr : editRefineOk a = true
      · rw [if_neg (by simp [hr]), if_pos hbad]
        exact ⟨_, rfl⟩
      · rw [if_pos (by simp [hr])]
        exact ⟨_, rfl⟩
    obtain ⟨e, hval⟩ := hval
    by_cases hs : editShapeOk a = true
    · constructor
      · simp [editInvoke, hs, hval]
      · simp [editInvoke, hs, hval, isError]
    · constructor <;> simp [editInvoke, hs, isError]
  · intro a env u hs hr habs hb64
    have h1 : absolutePathCheckStr a.image = false := by simpa using habs
    have h2 : base64Check a.image = false := by simpa using hb64
    have hbad : inputBad (some a.image) = true := by simp [inputBad, h1, h2]
    have hval : editValidate a = .error (.invalidInput
        "Invalid 'image' input: Must be an absolute path or a base64-encoded string.") := by
      unfold editValidate
      rw [if_neg (by simp [hr]), if_pos hbad]
    simp [editInvoke, hs, hval]
  · intro a env u m hs hr hcls hm habs hb64
    have hgood : inputBad (some a.image) = false := by
      rcases hcls with h | h <;> simp [inputBad, h]
    have h1 : absolutePathCheckStr m = false := by simpa using habs
    have h2 : base64Check m = false := by simpa using hb64
    have hbadm : inputBad a.mask = true := by
      rw [hm]
      simp [inputBad, h1, h2]
    have hval : editValidate a = .error (.invalidInput
        "Invalid 'mask' input: Must be an absolute path or a base64-encoded string.") := by
      unfold editValidate
      rw [if_neg (by simp [hr]), if_neg (by simp [hgood]), if_pos hbadm]
    simp [editInvoke, hs, hval]

/-- Witness for C5: the spec's scenario, evaluated. -/
theorem claim5_unclassifiable_input_rejected_witness :
    editInvoke { image := "not-a-path-not-base64!!", prompt := "p" }
      (fun _ => ["QUJD"]) ⟨"/home/u", true, none, 0⟩ =
    .error (.invalidInput
      "Invalid 'image' input: Must be an absolute path or a base64-encoded string.") :=
  claim5_unclassifiable_input_rejected.2.1 _ ⟨"/home/u", true, none, 0⟩ _
    (by decide) (by decide) (by decide) (by decide)

/-- C2 (bug evidence): `create-image` never re-applies the cross-field
refinement (it registers `createImageSchema._def.schema.shape` and does
not call `parse`), so a file-output request with the `file_output`
argument missing is not rejected — the invocation calls upstream and
silently writes to the default directory; `edit-image`, which does
re-validate, rejects the analogous invocation before the upstream
call. -/
theorem claim2_create_skips_refinement :
    createInvoke { prompt := "p", output := some OutputMode.fileOutput }
        (fun _ => ["QUJD"]) ⟨"/home/u", true, none, 77⟩ =
      .ok (.files ["/home/u/Pictures/gpt-image/openai_image_77.png"]) ∧
    editInvoke { image := "/a.png", prompt := "p", output := some OutputMode.fileOutput }
        (fun _ => ["QUJD"]) ⟨"/home/u", true, none, 77⟩ =
      .error (.invalidParameter
        "file_output must be an absolute path when output is 'file_output'") :=
  ⟨rfl, rfl⟩

/-! ## Image-input-resolver claim (C9) -/

theorem encodeChunks_head (a : Nat) (rest : List Nat) :
    (encodeChunks (a :: rest)).head? = some (b64Char (a / 4)) := by
  cases rest with
  | nil => rfl
  | cons b r2 => cases r2 <;> rfl

theorem encodeChunks_cons_ne_nil (a : Nat) (rest : List Nat) :
    encodeChunks (a :: rest) ≠ [] := by
  cases rest with
  | nil => simp [encodeChunks]
  | cons b r2 => cases r2 <;> simp [encodeChunks]

theorem b64Char_ne_slash : ∀ n < 63, b64Char n ≠ '/' := by decide

theorem winDrive_encode (l : List Nat) : winDriveCheck ⟨encodeChunks l⟩ = false := by
  have hmem := encodeChunks_mem l
  unfold winDriveCheck
  cases h : encodeChunks l with
  | nil => rfl
  | cons a t =>
    cases t with
    | nil => rfl
    | cons b t2 =>
      cases t2 with
      | nil => rfl
      | cons c t3 =>
        apply decide_eq_false
        rintro ⟨h1, h2, h3⟩
        have hb : b ∈ encodeChunks l := by rw [h]; simp
        rcases hmem b hb with hb2 | hb2
        · rw [h2] at hb2
          exact absurd hb2 (by decide)
        · rw [h2] at hb2
          exact absurd hb2 (by decide)

theorem base64Encode_not_path (b0 : Nat) (B : List Nat) (hb0 : b0 < 252) :
    absolutePathCheckStr (base64Encode (b0 :: B)) = false := by
  unfold absolutePathCheckStr
  rw [if_neg (show base64Encode (b0 :: B) ≠ "" from fun hc =>
    encodeChunks_cons_ne_nil b0 B (congrArg String.data hc))]
  apply decide_eq_false
  intro hor
  rcases hor with h | h
  · rw [show (base64Encode (b0 :: B)).data = encodeChunks (b0 :: B) from rfl,
      encodeChunks_head] at h
    have h2 : b64Char (b0 / 4) = '/' := by
      injection h
    exact b64Char_ne_slash (b0 / 4) (by omega) h2
  · rw [show base64Encode (b0 :: B) = ⟨encodeChunks (b0 :: B)⟩ from rfl,
      winDrive_encode] at h
    exact Bool.noConfusion h

theorem base64Encode_no_dataPrefix (l : List Nat) :
    strPrefix "data:image/" (base64Encode l) = false := by
  apply decide_eq_false
  intro h
  have h1 : ':' ∈ (encodeChunks l).take 11 := by
    rw [show (base64Encode l).data = encodeChunks l from rfl,
        show "data:image/".data.length = 11 from rfl] at h
    rw [h]
    decide
  have h2 : ':' ∈ encodeChunks l := List.take_subset _ _ h1
  rcases encodeChunks_mem l ':' h2 with h3 | h3
  · exact absurd h3 (by decide)
  · exact absurd h3 (by decide)

theorem mimeSubtype_image (subtype : String) (hsub : subtype.data ≠ [])
    (hns : '/' ∉ subtype.data) : mimeSubtype ("image/" ++ subtype) = subtype := by
  unfold mimeSubtype
  have hdata : ("image/" ++ subtype).data = ['i', 'm', 'a', 'g', 'e'] ++ '/' :: subtype.data := by
    rw [String.data_append]
    rfl
  rw [hdata]
  rw [splitOnChar_append_sep _ _ _ (by decide), splitOnChar_no_sep _ _ hns]
  cases hsd : subtype.data with
  | nil => exact absurd hsd hsub
  | cons c cs => exact String.ext hsd.symm

/-- C9 counterexample: the base64 alphabet contains `/`, so the encoding
of `[255]` is `"/w=="`, which the resolver classifies as an absolute
file path and never decodes — the round trip fails. -/
theorem claim9_roundtrip_cex :
    base64Encode [255] = "/w==" ∧
    inputToFile (base64Encode [255]) 0 = .fileStream "/w==" "image/png" := by
  exact ⟨rfl, rfl⟩

/-- C9 (amended): the round trip holds whenever the encoding is not
captured by the absolute-path classification — for raw base64, when the
buffer is nonempty and its first byte is below 252 (so the encoding does
not begin with `/`); for data URLs, always: resolving yields exactly the
original bytes with MIME `image/png`, respectively the declared
subtype. -/
theorem claim9_roundtrip (b0 : Nat) (B Bd : List Nat) (subtype : String) (idx : Nat)
    (hb0 : b0 < 252) (hB : bytesOk (b0 :: B))
    (hsub : subtype.data ≠ []) (hword : ∀ c ∈ subtype.data, isWordChar c = true)
    (hBd : bytesOk Bd) :
    inputToFile (base64Encode (b0 :: B)) idx =
      .bytes (b0 :: B) "image/png" ("input_" ++ Nat.repr idx ++ "." ++ "png") ∧
    inputToFile ("data:image/" ++ subtype ++ ";base64," ++ base64Encode Bd) idx =
      .bytes Bd ("image/" ++ subtype) ("input_" ++ Nat.repr idx ++ "." ++ subtype) := by
  constructor
  · have habs := base64Encode_not_path b0 B hb0
    have hpre := base64Encode_no_dataPrefix (b0 :: B)
    unfold inputToFile
    rw [if_neg (by simp [habs])]
    rw [if_neg (by simp [hpre])]
    dsimp only
    rw [jsBase64Decode_encode _ hB]
    rfl
  · have hns : '/' ∉ subtype.data := fun hmem => absurd (hword '/' hmem) (by decide)
    set s := "data:image/" ++ subtype ++ ";base64," ++ base64Encode Bd with hs
    have hd0 : s.data =
        "data:image/".data ++ (subtype.data ++ (";base64,".data ++ encodeChunks Bd)) := by
      rw [hs]
      simp [String.data_append, List.append_assoc, base64Encode]
    have hcons : s.data = 'd' :: 'a' :: 't' :: 'a' :: ':' :: 'i' :: 'm' :: 'a' :: 'g' ::
        'e' :: '/' ::
        (subtype.data ++ ';' :: 'b' :: 'a' :: 's' :: 'e' :: '6' :: '4' :: ',' ::
          encodeChunks Bd) := by
      rw [hd0]
      rfl
    have hne : s ≠ "" := fun hc => by
      rw [hc] at hcons
      exact List.noConfusion hcons
    have hw : winDriveCheck s = false := by
      unfold winDriveCheck
      rw [hcons]
      rfl
    have hh : s.data.head? = some 'd' := by
      rw [hcons]
      rfl
    have habs : absolutePathCheckStr s = false := by
      unfold absolutePathCheckStr
      rw [if_neg hne]
      apply decide_eq_false
      intro hor
      rcases hor with h | h
      · rw [hh] at h
        exact absurd h (by decide)
      · rw [hw] at h
        exact Bool.noConfusion h
    have hpre : strPrefix "data:image/" s = true := by
      unfold strPrefix
      apply decide_eq_true
      rw [hcons]
      rfl
    have halph : ∀ c ∈ b64Alphabet, isLineTerm c = false := by decide
    have hmatch : dataUrlMatch s = some ("image/" ++ subtype, base64Encode Bd) := by
      unfold dataUrlMatch
      rw [if_pos hpre]
      have hdrop : s.data.drop 11 = subtype.data ++ ';' :: 'b' :: 'a' :: 's' :: 'e' ::
          '6' :: '4' :: ',' :: encodeChunks Bd := by
        rw [hcons]
        rfl
      rw [hdrop]
      dsimp only
      rw [takeWhile_append_stop _ _ _ _ (fun c hc => hword c hc) (by decide)]
      rw [dropWhile_append_stop _ _ _ _ (fun c hc => hword c hc) (by decide)]
      rw [if_neg (by simpa using hsub)]
      rw [if_pos (show (';' :: 'b' :: 'a' :: 's' :: 'e' :: '6' :: '4' :: ',' ::
        encodeChunks Bd).take 8 = (";base64,").data from rfl)]
      have hallenc : (encodeChunks Bd).all (fun c => ¬ isLineTerm c) = true := by
        rw [List.all_eq_true]
        intro c hc
        rcases encodeChunks_mem Bd c hc with h | h
        · simp [halph c h]
        · subst h
          decide
      rw [if_pos (show ((';' :: 'b' :: 'a' :: 's' :: 'e' :: '6' :: '4' :: ',' ::
        encodeChunks Bd).drop 8).all (fun c => ¬ isLineTerm c) = true from hallenc)]
      rfl
    unfold inputToFile
    rw [if_neg (by simp [habs]), if_pos hpre, hmatch]
    dsimp only
    rw [jsBase64Decode_encode _ hBd, mimeSubtype_image subtype hsub hns]

/-- Witness for C9: a three-byte buffer round-trips through the raw and
the data-URL form. -/
theorem claim9_roundtrip_witness :
    inputToFile (base64Encode [1, 2, 3]) 0 =
      .bytes [1, 2, 3] "image/png" ("input_" ++ Nat.repr 0 ++ "." ++ "png") ∧
    inputToFile ("data:image/" ++ "webp" ++ ";base64," ++ base64Encode [1, 2, 3]) 1 =
      .bytes [1, 2, 3] ("image/" ++ "webp") ("input_" ++ Nat.repr 1 ++ "." ++ "webp") :=
  ⟨(claim9_roundtrip 1 [2, 3] [1, 2, 3] "webp" 0 (by decide) (by decide) (by decide)
      (by decide) (by decide)).1,
   (claim9_roundtrip 1 [2, 3] [1, 2, 3] "webp" 1 (by decide) (by decide) (by decide)
      (by decide) (by decide)).2⟩

end ImageMcp
